import Mathlib

/-!
# Scene layout and rendering of `SceneRenderer` (src/scene/scene_renderer.cpp)

A shallow embedding of the scene-to-buffer compiler: the two offset maps, the
two running block lengths, the breadth-first render queue, `layout()` and
`render(buffer)`.

Conventions of the embedding.

* Pointers (`Material*`, `Hittable*`) are identities, modelled as natural
  numbers (`id`).  Two occurrences of the same `id` in a scene denote the same
  object, so a scene in which an object is shared is written as a tree in which
  its `id` occurs more than once.
* The C++ `int` counters and offsets are `Int` (no wrap-around is modelled:
  signed overflow is undefined in the source language).
* The classes `Material`, `Hittable`, `Scene` and `SceneBuffer` and the header
  of `SceneRenderer` are not part of the sources at hand; what the four
  functions of `scene_renderer.cpp` need from them is modelled from the
  specification and marked so.
* A scene is a finite tree of nodes, so a cyclic scene graph cannot be written
  down; on such a graph the drain loop of `layout()` would not return.
* `render` sets the member `scene_buffer` to the buffer while the writes run
  and back to `nullptr` before it returns; the member is not read by the four
  functions and is left out of the state.
-/

namespace Armasa

/-! ## Entities of the scene graph -/

/-- Modelled from the spec: class `Material` (materials/material.hpp is not
among the sources).  A material has an identity (its address) and a declared
stride, the value of `get_gl_buffer_stride()`. -/
structure Material where
  id : Nat
  stride : Int
deriving DecidableEq, Repr

/-- Stride accessor of a material, `Material::get_gl_buffer_stride()`. -/
def Material.get_gl_buffer_stride (m : Material) : Int := m.stride

/-- Modelled from the spec: class `Hittable` (hittables/hittable.hpp and
hittable_list.hpp are not among the sources).  A node has an identity (its
address), a declared stride, the materials it registers itself, and its
children (empty for a leaf, the list of children for a composite). -/
inductive Hittable where
  | mk (id : Nat) (stride : Int) (materials : List Material) (children : List Hittable)
deriving Repr

namespace Hittable

/-- Identity (address) of a node. -/
def id : Hittable → Nat
  | mk i _ _ _ => i

/-- Stride accessor of a node, `Hittable::get_gl_buffer_stride()`. -/
def get_gl_buffer_stride : Hittable → Int
  | mk _ s _ _ => s

/-- Materials a node registers itself. -/
def materials : Hittable → List Material
  | mk _ _ m _ => m

/-- Children of a node, in child order. -/
def children : Hittable → List Hittable
  | mk _ _ _ c => c

mutual
/-- All nodes of the tree below (and including) a node, parents first. -/
def nodes : Hittable → List Hittable
  | mk i s m cs => mk i s m cs :: nodesList cs
/-- All nodes of a forest. -/
def nodesList : List Hittable → List Hittable
  | [] => []
  | c :: cs => nodes c ++ nodesList cs
end

mutual
/-- The materials handed to `register_material` by the depth-first material
pass started at a node, in call order (with repetitions). -/
def registered_materials : Hittable → List Material
  | mk _ _ m cs => m ++ registered_materialsList cs
/-- The same for a forest. -/
def registered_materialsList : List Hittable → List Material
  | [] => []
  | c :: cs => registered_materials c ++ registered_materialsList cs
end

end Hittable

/-- Modelled from the spec: class `Scene` (scene/scene.hpp is not among the
sources); all the renderer uses of it is its root hittable. -/
structure Scene where
  root_hittable : Hittable

/-- Accessor `Scene::get_root_hittable()`. -/
def Scene.get_root_hittable (t : Scene) : Hittable := t.root_hittable

/-! ## Offset maps -/

/-- Modelled from the spec: the offset map type declared in scene_renderer.hpp
(not among the sources): a map from entity identity to offset whose iteration
order is the registration order.  It is kept as the list of its entries in
insertion order. -/
abbrev OffsetMap := List (Nat × Int)

namespace OffsetMap

/-- Keys of a map, in iteration order. -/
def keys (m : OffsetMap) : List Nat := m.map Prod.fst

/-- Offset stored for a key, if any. -/
def find (m : OffsetMap) (k : Nat) : Option Int := List.lookup k m

/-- Insertion `map.insert({k, v})`: a key already present keeps its value. -/
def insert (m : OffsetMap) (k : Nat) (v : Int) : OffsetMap :=
  if k ∈ keys m then m else m ++ [(k, v)]

end OffsetMap

/-! ## The renderer -/

/-- State of a `SceneRenderer`: the scene it targets, the two offset maps, the
render queue and the two running block lengths. -/
structure SceneRenderer where
  target : Scene
  hittable_map : OffsetMap
  material_map : OffsetMap
  hittable_render_queue : List Hittable
  hittable_block_length : Int
  material_block_length : Int

/-- Embedding of `SceneRenderer::enqueue_hittable_render`. -/
def enqueue_hittable_render (s : SceneRenderer) (hittable : Hittable) : SceneRenderer :=
  { s with
    hittable_render_queue := s.hittable_render_queue ++ [hittable]
    hittable_map :=
      OffsetMap.insert s.hittable_map hittable.id
        (s.material_block_length + s.hittable_block_length)
    hittable_block_length := s.hittable_block_length + hittable.get_gl_buffer_stride }

/-- Embedding of `SceneRenderer::register_material`. -/
def register_material (s : SceneRenderer) (material : Material) : SceneRenderer :=
  { s with
    material_map := OffsetMap.insert s.material_map material.id s.material_block_length
    material_block_length := s.material_block_length + material.get_gl_buffer_stride }

mutual
/-- Modelled from the spec: `Hittable::register_materials(renderer)`, the
depth-first material pass: a node registers its own materials and then asks
each child, in child order, to register its materials. -/
def register_materials : Hittable → SceneRenderer → SceneRenderer
  | Hittable.mk _ _ ms cs, s => register_materials_each cs (ms.foldl register_material s)
/-- The material pass over the children of a composite. -/
def register_materials_each : List Hittable → SceneRenderer → SceneRenderer
  | [], s => s
  | c :: cs, s => register_materials_each cs (register_materials c s)
end

/-- Modelled from the spec: `Hittable::register_hittables(renderer)`: a
composite enqueues each of its children in child order, a leaf enqueues
nothing. -/
def register_hittables (next : Hittable) (s : SceneRenderer) : SceneRenderer :=
  next.children.foldl enqueue_hittable_render s

/-- Number of nodes in a forest; the measure of the drain loop. -/
def weight (q : List Hittable) : Nat := (Hittable.nodesList q).length

/-- The first loop of `layout()`: pop until the queue is empty. -/
def pop_all : List Hittable → List Hittable
  | [] => []
  | _ :: q => pop_all q

/-- The second loop of `layout()`: take the front of the queue, pop it, let it
register its hittables; repeat until the queue is empty. -/
def drain (s : SceneRenderer) : SceneRenderer :=
  match h : s.hittable_render_queue with
  | [] => s
  | next :: rest => drain (register_hittables next { s with hittable_render_queue := rest })
termination_by weight s.hittable_render_queue
decreasing_by
  have happ : ∀ a b : List Hittable, weight (a ++ b) = weight a + weight b := by
    intro a b
    induction a with
    | nil => simp [weight, Hittable.nodesList]
    | cons x xs ih =>
      simp only [weight] at ih
      simp only [weight, List.cons_append, List.append_eq, Hittable.nodesList,
        List.length_append]
      omega
  have hq : ∀ (l : List Hittable) (r : SceneRenderer),
      (l.foldl enqueue_hittable_render r).hittable_render_queue
        = r.hittable_render_queue ++ l := by
    intro l
    induction l with
    | nil => intro r; simp
    | cons x xs ih => intro r; simp [ih, enqueue_hittable_render]
  have hc : weight (next :: rest) = 1 + weight next.children + weight rest := by
    cases next with
    | mk i st m cs =>
      simp only [weight, Hittable.nodesList, Hittable.nodes, Hittable.children,
        List.length_append, List.length_cons]
      omega
  rw [h]
  simp only [register_hittables, hq, happ, hc]
  omega

/-- Embedding of `SceneRenderer::layout`. -/
def layout (s : SceneRenderer) : SceneRenderer :=
  let s1 : SceneRenderer := { s with hittable_map := [], material_map := [] }
  let s2 : SceneRenderer := { s1 with material_block_length := 0, hittable_block_length := 0 }
  let s3 : SceneRenderer := { s2 with hittable_render_queue := pop_all s2.hittable_render_queue }
  let s4 := register_materials s3.target.get_root_hittable s3
  let s5 := enqueue_hittable_render s4 s4.target.get_root_hittable
  drain s5

/-! ## The scene buffer and `render` -/

/-- One call received by the scene buffer during `render`: the three buffer
operations of `render` and the two kinds of `write` (`Material::render`,
`Hittable::render`), each with the entity and the offset it is given. -/
inductive BufferCall where
  | require_capacity (n : Int)
  | set_entry_hittable_index (i : Int)
  | material_render (material : Nat) (offset : Int)
  | hittable_render (hittable : Nat) (offset : Int)
  | set_needs_synchronize
deriving DecidableEq, Repr

/-- Modelled from the spec: class `SceneBuffer` (scene/scene_buffer.hpp is not
among the sources): the capacity of the arenas, the recorded entry offset, the
flag asking for synchronization, and the calls received so far (oldest
first). -/
structure SceneBuffer where
  capacity : Int
  entry_hittable_index : Int
  needs_synchronize : Bool
  calls : List BufferCall
deriving DecidableEq, Repr

namespace SceneBuffer

/-- Modelled from the spec: `require_capacity(n)` grows the arenas, if needed,
to hold at least `n` elements and never shrinks them. -/
def require_capacity (b : SceneBuffer) (n : Int) : SceneBuffer :=
  { b with capacity := max b.capacity n, calls := b.calls ++ [BufferCall.require_capacity n] }

/-- Modelled from the spec: `set_entry_hittable_index(i)` records the entry
offset. -/
def set_entry_hittable_index (b : SceneBuffer) (i : Int) : SceneBuffer :=
  { b with entry_hittable_index := i, calls := b.calls ++ [BufferCall.set_entry_hittable_index i] }

/-- Modelled from the spec: `get_entry_hittable_index()` returns the recorded
entry offset. -/
def get_entry_hittable_index (b : SceneBuffer) : Int := b.entry_hittable_index

/-- Modelled from the spec: `set_needs_synchronize()` marks the buffer as
needing synchronization. -/
def set_needs_synchronize (b : SceneBuffer) : SceneBuffer :=
  { b with needs_synchronize := true, calls := b.calls ++ [BufferCall.set_needs_synchronize] }

/-- Modelled from the spec: `Material::render(renderer, offset)`, the write of
one material at its offset; the payload is not modelled, the call is
recorded. -/
def material_render (b : SceneBuffer) (entry : Nat × Int) : SceneBuffer :=
  { b with calls := b.calls ++ [BufferCall.material_render entry.1 entry.2] }

/-- Modelled from the spec: `Hittable::render(renderer, offset)`, the write of
one hittable at its offset; the payload is not modelled, the call is
recorded. -/
def hittable_render (b : SceneBuffer) (entry : Nat × Int) : SceneBuffer :=
  { b with calls := b.calls ++ [BufferCall.hittable_render entry.1 entry.2] }

end SceneBuffer

/-- The test at the head of `render`: a negative length means that no layout
is in force (the STALE state of the specification). -/
def stale (s : SceneRenderer) : Prop :=
  s.material_block_length < 0 ∨ s.hittable_block_length < 0

instance (s : SceneRenderer) : Decidable (stale s) := by
  unfold stale
  infer_instance

/-- Embedding of `SceneRenderer::render`: the renderer after the call and the
buffer after the call. -/
def render (s : SceneRenderer) (buffer : SceneBuffer) : SceneRenderer × SceneBuffer :=
  let s1 := if s.material_block_length < 0 ∨ s.hittable_block_length < 0 then layout s else s
  let b1 := buffer.require_capacity (s1.material_block_length + s1.hittable_block_length)
  let b2 := b1.set_entry_hittable_index s1.material_block_length
  let b3 := s1.material_map.foldl SceneBuffer.material_render b2
  let b4 := s1.hittable_map.foldl SceneBuffer.hittable_render b3
  (s1, b4.set_needs_synchronize)

/-! ## Notions of the specification -/

/-- Identity and stride of each material of a list. -/
def materialEntries (l : List Material) : List (Nat × Int) :=
  l.map fun m => (m.id, m.get_gl_buffer_stride)

/-- Identity and stride of each node of a list. -/
def hittableEntries (l : List Hittable) : List (Nat × Int) :=
  l.map fun h => (h.id, h.get_gl_buffer_stride)

/-- Sum of the strides of a list of (identity, stride) entries. -/
def sumStrides (l : List (Nat × Int)) : Int := (l.map Prod.snd).sum

/-- The dense layout of the specification: starting at `base`, every entry
sits right behind its predecessor: offsets `base`, `base + s0`,
`base + s0 + s1`, ... -/
def denseOffsets : Int → List (Nat × Int) → OffsetMap
  | _, [] => []
  | base, (k, st) :: rest => (k, base) :: denseOffsets (base + st) rest

/-- Entries of a list up to the first one with identity `k`. -/
def before (k : Nat) (l : List (Nat × Int)) : List (Nat × Int) :=
  l.takeWhile fun e => e.1 ≠ k

/-- Identities in the order of their first occurrence. -/
def firstOccurrences : List Nat → List Nat
  | [] => []
  | k :: rest => k :: (firstOccurrences rest).filter fun j => j ≠ k

/-- The layout with "first registration wins": every registration advances
the running offset, an identity keeps the offset of its first registration. -/
def firstOffsets : Int → List (Nat × Int) → OffsetMap
  | _, [] => []
  | base, (k, st) :: rest => (k, base) :: (firstOffsets (base + st) rest).filter fun e => e.1 ≠ k

/-- One registration against a map and its running length: the identity is
inserted at `base` plus the running length, which then advances by the
stride.  Both `register_material` (with `base = 0`) and
`enqueue_hittable_render` (with `base = material_block_length`) act so. -/
def assign (base : Int) (st : OffsetMap × Int) (e : Nat × Int) : OffsetMap × Int :=
  (OffsetMap.insert st.1 e.1 (base + st.2), st.2 + e.2)

/-- Entries in the order of the first occurrence of their identity. -/
def firstEntries : List (Nat × Int) → List (Nat × Int)
  | [] => []
  | (k, st) :: rest => (k, st) :: (firstEntries rest).filter fun e => e.1 ≠ k

/-- Breadth-first order of a forest, by levels: the trees of the level in
order, then the breadth-first order of the next level, which is made of the
children of each tree, siblings in child order. -/
def levelOrder : List Hittable → List Hittable
  | [] => []
  | t :: ts => (t :: ts) ++ levelOrder ((t :: ts).flatMap Hittable.children)
termination_by q => weight q
decreasing_by
  have happ : ∀ a b : List Hittable, weight (a ++ b) = weight a + weight b := by
    intro a b
    induction a with
    | nil => simp [weight, Hittable.nodesList]
    | cons x xs ih =>
      simp only [weight] at ih
      simp only [weight, List.cons_append, List.append_eq, Hittable.nodesList,
        List.length_append]
      omega
  have hc : ∀ (x : Hittable) (q : List Hittable),
      weight (x :: q) = 1 + weight x.children + weight q := by
    intro x q
    cases x with
    | mk i st m cs =>
      simp only [weight, Hittable.nodesList, Hittable.nodes, Hittable.children,
        List.length_append, List.length_cons]
      omega
  have hb : ∀ q : List Hittable, weight (q.flatMap Hittable.children) ≤ weight q := by
    intro q
    induction q with
    | nil => simp
    | cons x xs ih =>
      simp only [List.flatMap_cons, happ, hc]
      omega
  rw [List.flatMap_cons, happ, hc]
  exact Nat.lt_of_le_of_lt (Nat.add_le_add_left (hb _) _) (by omega)

/-- Breadth-first order of the nodes of a scene: the root, then each level's
children. -/
def breadthFirst (root : Hittable) : List Hittable := levelOrder [root]

/-- A scene is tree-shaped when no node is referenced twice: the identities of
its nodes are pairwise distinct. -/
def TreeShaped (root : Hittable) : Prop := (root.nodes.map Hittable.id).Nodup

instance (root : Hittable) : Decidable (TreeShaped root) := by
  unfold TreeShaped
  infer_instance

/-- The density of the material block: the materials held in the map, in the
order of their first registration, sit one right behind the other from offset
0 on, and the block length is the sum of their strides. -/
def DenseMaterials (root : Hittable) (s : SceneRenderer) : Prop :=
  s.material_map = denseOffsets 0 (firstEntries (materialEntries root.registered_materials)) ∧
  s.material_block_length = sumStrides (firstEntries (materialEntries root.registered_materials))

instance (root : Hittable) (s : SceneRenderer) : Decidable (DenseMaterials root s) := by
  unfold DenseMaterials
  infer_instance

/-- Modelled from the spec: a renderer as constructed for a scene, before any
layout: empty maps, empty queue, both lengths at the negative sentinel. -/
def fresh (t : Scene) : SceneRenderer :=
  { target := t
    hittable_map := []
    material_map := []
    hittable_render_queue := []
    hittable_block_length := -1
    material_block_length := -1 }

/-- A scene whose two spheres (stride 6) reference the same material (identity
7, stride 4) below a composite root (stride 1). -/
def sharedMaterialScene : Scene :=
  { root_hittable :=
      Hittable.mk 0 1 []
        [Hittable.mk 1 6 [{ id := 7, stride := 4 }] [],
         Hittable.mk 2 6 [{ id := 7, stride := 4 }] []] }

/-- A scene whose two spheres reference two materials (identities 7 and 8,
strides 4 and 5) below a composite root. -/
def twoMaterialScene : Scene :=
  { root_hittable :=
      Hittable.mk 0 1 []
        [Hittable.mk 1 6 [{ id := 7, stride := 4 }] [],
         Hittable.mk 2 6 [{ id := 8, stride := 5 }] []] }

/-- Parent-before-child ordering of the offsets: every composite of the scene
sits at a smaller offset than each of its children. -/
def ParentBeforeChild (root : Hittable) (s : SceneRenderer) : Prop :=
  ∀ P ∈ root.nodes, ∀ C ∈ P.children, ∃ oP oC : Int,
    OffsetMap.find s.hittable_map P.id = some oP ∧
    OffsetMap.find s.hittable_map C.id = some oC ∧ oP < oC

/-- A scene in which the sphere 1 (stride 2) is a child of the root and also a
child of the composite 2 (stride 3), itself the second child of the root. -/
def sharedChildScene : Scene :=
  { root_hittable :=
      Hittable.mk 0 1 []
        [Hittable.mk 1 2 [] [],
         Hittable.mk 2 3 [] [Hittable.mk 1 2 [] []]] }

/-- A scene whose composite root has stride 0 and one sphere child (stride 6,
material 7 of stride 4). -/
def zeroStrideScene : Scene :=
  { root_hittable := Hittable.mk 0 0 [] [Hittable.mk 1 6 [{ id := 7, stride := 4 }] []] }

/-- A tree-shaped scene in which the first child of the root reports a
negative stride. -/
def negativeStrideScene : Scene :=
  { root_hittable := Hittable.mk 0 1 [] [Hittable.mk 1 (-5) [] [], Hittable.mk 2 1 [] []] }

/-- The calls `render` issues against the buffer when the layout in force is
that of the state `s`: capacity, entry offset, one write for each entry of
`material_map` in iteration order, one write for each entry of `hittable_map`
in iteration order, and the request for synchronization. -/
def renderCalls (s : SceneRenderer) : List BufferCall :=
  [BufferCall.require_capacity (s.material_block_length + s.hittable_block_length),
    BufferCall.set_entry_hittable_index s.material_block_length]
  ++ s.material_map.map (fun e => BufferCall.material_render e.1 e.2)
  ++ s.hittable_map.map (fun e => BufferCall.hittable_render e.1 e.2)
  ++ [BufferCall.set_needs_synchronize]

/-- The example scene of the specification: one material (identity `m`,
stride 4) and a composite root (identity `r`, stride `sr`) with a single child
sphere (identity `c`, stride 6) that references the material. -/
def exampleScene (m r c : Nat) (sr : Int) : Scene :=
  { root_hittable := Hittable.mk r sr [] [Hittable.mk c 6 [{ id := m, stride := 4 }] []] }

/-- All strides of a scene are non-negative: those of the materials its
hittables register and those of its nodes. -/
def NonNegStrides (root : Hittable) : Prop :=
  (∀ m ∈ root.registered_materials, 0 ≤ m.get_gl_buffer_stride) ∧
  (∀ n ∈ root.nodes, 0 ≤ n.get_gl_buffer_stride)

instance (root : Hittable) : Decidable (NonNegStrides root) := by
  unfold NonNegStrides
  infer_instance

/-- The state in which `layout()` reaches its second loop: both maps and both
lengths reset, the queue emptied, the materials registered and the root
enqueued. -/
def layout_entry (s : SceneRenderer) : SceneRenderer :=
  let s1 : SceneRenderer := { s with hittable_map := [], material_map := [] }
  let s2 : SceneRenderer := { s1 with material_block_length := 0, hittable_block_length := 0 }
  let s3 : SceneRenderer := { s2 with hittable_render_queue := pop_all s2.hittable_render_queue }
  let s4 := register_materials s3.target.get_root_hittable s3
  enqueue_hittable_render s4 s4.target.get_root_hittable

/-- One iteration of the second loop of `layout()`: `none` when the loop
condition fails (empty queue), otherwise the node taken from the front and the
state after it has registered its hittables. -/
def drain_step (s : SceneRenderer) : Option (Hittable × SceneRenderer) :=
  match s.hittable_render_queue with
  | [] => none
  | next :: rest =>
    some (next, register_hittables next { s with hittable_render_queue := rest })

/-- The second loop of `layout()` cut off after at most `n` iterations: the
nodes dequeued so far, in order, and the state reached. -/
def drain_iter : Nat → SceneRenderer → List Hittable × SceneRenderer
  | 0, s => ([], s)
  | n + 1, s =>
    match drain_step s with
    | none => ([], s)
    | some (next, s1) => (next :: (drain_iter n s1).1, (drain_iter n s1).2)

/-- All strides of a scene are positive: those of the materials its hittables
register and those of its nodes. -/
def PosStrides (root : Hittable) : Prop :=
  (∀ m ∈ root.registered_materials, 0 < m.get_gl_buffer_stride) ∧
  (∀ n ∈ root.nodes, 0 < n.get_gl_buffer_stride)

instance (root : Hittable) : Decidable (PosStrides root) := by
  unfold PosStrides
  infer_instance

/-- An identity denotes one object: wherever an identity occurs again in the
scene, it comes with the same stride. -/
def StrideOfIdentity (root : Hittable) : Prop :=
  (∀ a ∈ root.registered_materials, ∀ b ∈ root.registered_materials,
    a.id = b.id → a.get_gl_buffer_stride = b.get_gl_buffer_stride) ∧
  (∀ a ∈ root.nodes, ∀ b ∈ root.nodes,
    a.id = b.id → a.get_gl_buffer_stride = b.get_gl_buffer_stride)

instance (root : Hittable) : Decidable (StrideOfIdentity root) := by
  unfold StrideOfIdentity
  infer_instance

/-- A scene with three spheres below a composite root; the first and the third
sphere reference the same material (identity 7, stride 4), the second one
another material (identity 8, stride 5). -/
def repeatedMaterialScene : Scene :=
  { root_hittable :=
      Hittable.mk 0 1 []
        [Hittable.mk 1 6 [{ id := 7, stride := 4 }] [],
         Hittable.mk 2 6 [{ id := 8, stride := 5 }] [],
         Hittable.mk 3 6 [{ id := 7, stride := 4 }] []] }

/-- The renderer and the buffer at the point where `render` enters its two
write loops: after the optional `layout()`, the capacity request and the
entry offset. -/
def render_prepare (s : SceneRenderer) (buffer : SceneBuffer) : SceneRenderer × SceneBuffer :=
  let s1 := if s.material_block_length < 0 ∨ s.hittable_block_length < 0 then layout s else s
  let b1 := buffer.require_capacity (s1.material_block_length + s1.hittable_block_length)
  (s1, b1.set_entry_hittable_index s1.material_block_length)

/-- Modelled from the spec: the offsets the write of a node reads from the
renderer: the offset of each material the node references, looked up in
`material_map`, and the offset of each of its children, looked up in
`hittable_map`. -/
def write_lookups (s : SceneRenderer) (n : Hittable) : List (Option Int) :=
  n.materials.map (fun m => OffsetMap.find s.material_map m.id)
  ++ n.children.map (fun c => OffsetMap.find s.hittable_map c.id)

/-! ## Offset maps: registration against a map -/

theorem sumStrides_nil : sumStrides [] = 0 := rfl

theorem sumStrides_cons (e : Nat × Int) (l : List (Nat × Int)) :
    sumStrides (e :: l) = e.2 + sumStrides l := by
  simp [sumStrides]

theorem sumStrides_append (a b : List (Nat × Int)) :
    sumStrides (a ++ b) = sumStrides a + sumStrides b := by
  simp [sumStrides]

theorem sumStrides_nonneg (l : List (Nat × Int)) (h : ∀ e ∈ l, 0 ≤ e.2) :
    0 ≤ sumStrides l := by
  induction l with
  | nil => simp [sumStrides]
  | cons x xs ih =>
    rw [sumStrides_cons]
    have h1 := h x (List.mem_cons_self x xs)
    have h2 := ih (fun e he => h e (List.mem_cons_of_mem x he))
    omega

theorem lookup_filter_keep (k : Nat) (p : Nat × Int → Bool) (l : List (Nat × Int))
    (hp : ∀ e, e.1 = k → p e = true) :
    List.lookup k (l.filter p) = List.lookup k l := by
  induction l with
  | nil => rfl
  | cons x xs ih =>
    obtain ⟨j, v⟩ := x
    by_cases hj : k = j
    · subst hj
      simp [List.filter_cons, hp (k, v) rfl, List.lookup_cons]
    · have hne : (k == j) = false := by simpa using hj
      cases hpx : p (j, v) with
      | true => simp [List.filter_cons, hpx, List.lookup_cons, hne, ih]
      | false => simp [List.filter_cons, hpx, List.lookup_cons, hne, ih]

theorem keys_firstOffsets (base : Int) (l : List (Nat × Int)) :
    OffsetMap.keys (firstOffsets base l) = firstOccurrences (l.map Prod.fst) := by
  induction l generalizing base with
  | nil => rfl
  | cons x xs ih =>
    obtain ⟨k, st⟩ := x
    have h := ih (base + st)
    simp only [OffsetMap.keys] at h
    simp only [firstOffsets, OffsetMap.keys, List.map_cons, firstOccurrences, ← h,
      List.filter_map]
    rfl

theorem mem_firstOccurrences (k : Nat) (l : List Nat) :
    k ∈ firstOccurrences l ↔ k ∈ l := by
  induction l with
  | nil => simp [firstOccurrences]
  | cons x xs ih =>
    simp only [firstOccurrences, List.mem_cons, List.mem_filter, ih]
    by_cases h : k = x
    · simp [h]
    · simp [h]

theorem nodup_firstOccurrences (l : List Nat) : (firstOccurrences l).Nodup := by
  induction l with
  | nil => simp [firstOccurrences]
  | cons x xs ih =>
    simp only [firstOccurrences, List.nodup_cons, List.mem_filter]
    exact ⟨by simp, ih.filter _⟩

theorem firstOccurrences_of_nodup (l : List Nat) (h : l.Nodup) : firstOccurrences l = l := by
  induction l with
  | nil => rfl
  | cons x xs ih =>
    rw [List.nodup_cons] at h
    simp only [firstOccurrences, ih h.2]
    congr 1
    rw [List.filter_eq_self]
    intro a ha
    have : a ≠ x := fun e => h.1 (e ▸ ha)
    simpa using this

theorem mem_keys_firstOffsets (k : Nat) (base : Int) (l : List (Nat × Int)) :
    k ∈ OffsetMap.keys (firstOffsets base l) ↔ k ∈ l.map Prod.fst := by
  rw [keys_firstOffsets, mem_firstOccurrences]

theorem firstOffsets_of_nodup (base : Int) (l : List (Nat × Int))
    (h : (l.map Prod.fst).Nodup) : firstOffsets base l = denseOffsets base l := by
  induction l generalizing base with
  | nil => rfl
  | cons x xs ih =>
    obtain ⟨k, st⟩ := x
    simp only [List.map_cons, List.nodup_cons] at h
    simp only [firstOffsets, denseOffsets, ih (base + st) h.2]
    congr 1
    rw [← ih (base + st) h.2, List.filter_eq_self]
    intro e he
    have hk : e.1 ∈ OffsetMap.keys (firstOffsets (base + st) xs) :=
      List.mem_map_of_mem Prod.fst he
    rw [mem_keys_firstOffsets] at hk
    have : e.1 ≠ k := fun e1 => h.1 (e1 ▸ hk)
    simpa using this

theorem firstEntries_of_nodup (l : List (Nat × Int)) (h : (l.map Prod.fst).Nodup) :
    firstEntries l = l := by
  induction l with
  | nil => rfl
  | cons x xs ih =>
    obtain ⟨k, st⟩ := x
    simp only [List.map_cons, List.nodup_cons] at h
    simp only [firstEntries, ih h.2]
    congr 1
    rw [List.filter_eq_self]
    intro e he
    have : e.1 ≠ k := fun e1 => h.1 (e1 ▸ List.mem_map_of_mem Prod.fst he)
    simpa using this

theorem find_firstOffsets (k : Nat) (base : Int) (l : List (Nat × Int)) :
    OffsetMap.find (firstOffsets base l) k
      = if k ∈ l.map Prod.fst then some (base + sumStrides (before k l)) else none := by
  induction l generalizing base with
  | nil => simp [firstOffsets, OffsetMap.find]
  | cons x xs ih =>
    obtain ⟨j, st⟩ := x
    by_cases hj : k = j
    · subst hj
      simp [firstOffsets, OffsetMap.find, List.lookup_cons, before, sumStrides]
    · have hne : (k == j) = false := by simpa using hj
      have hkeep : ∀ e : Nat × Int, e.1 = k → (fun e : Nat × Int => decide (e.1 ≠ j)) e = true := by
        intro e he
        simpa [he] using hj
      have h := ih (base + st)
      simp only [OffsetMap.find] at h
      simp only [firstOffsets, OffsetMap.find, List.lookup_cons, hne,
        lookup_filter_keep k _ _ hkeep, h, List.map_cons, List.mem_cons, hj, false_or]
      have hb : before k ((j, st) :: xs) = (j, st) :: before k xs := by
        have : ¬ j = k := fun e => hj e.symm
        simp [before, List.takeWhile_cons, this]
      rw [hb, sumStrides_cons]
      by_cases hm : k ∈ xs.map Prod.fst
      · simp only [hm, if_true]
        congr 1
        omega
      · simp [hm]

theorem foldl_assign (base : Int) (l : List (Nat × Int)) (m : OffsetMap) (len : Int) :
    l.foldl (assign base) (m, len)
      = (m ++ (firstOffsets (base + len) l).filter (fun e => decide (e.1 ∉ OffsetMap.keys m)),
         len + sumStrides l) := by
  induction l generalizing m len with
  | nil => simp [firstOffsets, sumStrides]
  | cons x xs ih =>
    obtain ⟨k, st⟩ := x
    rw [List.foldl_cons]
    by_cases hk : k ∈ OffsetMap.keys m
    · have h1 : assign base (m, len) (k, st) = (m, len + st) := by
        simp [assign, OffsetMap.insert, hk]
      rw [h1, ih, sumStrides_cons]
      have hb : base + (len + st) = base + len + st := by omega
      simp only [firstOffsets, List.filter_cons, hk, hb, List.filter_filter]
      refine Prod.ext ?_ (by simp only []; omega)
      simp only [not_true_eq_false, decide_False, Bool.false_eq_true, if_false]
      congr 1
      apply List.filter_congr
      intro e _
      by_cases he : e.1 ∈ OffsetMap.keys m
      · simp [he]
      · have : e.1 ≠ k := fun e1 => he (e1 ▸ hk)
        simp [he, this]
    · have h1 : assign base (m, len) (k, st) = (m ++ [(k, base + len)], len + st) := by
        simp [assign, OffsetMap.insert, hk]
      rw [h1, ih, sumStrides_cons]
      have hb : base + (len + st) = base + len + st := by omega
      simp only [firstOffsets, List.filter_cons, hk, hb, List.filter_filter]
      refine Prod.ext ?_ (by simp only []; omega)
      simp only [not_false_eq_true, decide_True, if_true, List.append_assoc,
        List.singleton_append]
      congr 2
      apply List.filter_congr
      intro e _
      by_cases h2 : e.1 ∈ List.map Prod.fst m <;> by_cases h3 : e.1 = k <;>
        simp [OffsetMap.keys, h2, h3]

/-! ## Registration passes on the renderer state -/

theorem foldl_register_material (l : List Material) (s : SceneRenderer) :
    l.foldl register_material s =
      { s with
        material_map :=
          (List.foldl (assign 0) (s.material_map, s.material_block_length)
            (materialEntries l)).1
        material_block_length :=
          (List.foldl (assign 0) (s.material_map, s.material_block_length)
            (materialEntries l)).2 } := by
  induction l generalizing s with
  | nil => simp [materialEntries]
  | cons x xs ih =>
    rw [List.foldl_cons, ih]
    simp [register_material, materialEntries, assign]

mutual
theorem register_materials_eq : ∀ (h : Hittable) (s : SceneRenderer),
    register_materials h s = h.registered_materials.foldl register_material s
  | Hittable.mk _ _ ms cs, s => by
    simp only [register_materials, Hittable.registered_materials, List.foldl_append]
    exact register_materials_each_eq cs _
theorem register_materials_each_eq : ∀ (l : List Hittable) (s : SceneRenderer),
    register_materials_each l s
      = (Hittable.registered_materialsList l).foldl register_material s
  | [], s => by
    simp [register_materials_each, Hittable.registered_materialsList]
  | c :: cs, s => by
    simp only [register_materials_each, Hittable.registered_materialsList, List.foldl_append]
    rw [register_materials_eq c s]
    exact register_materials_each_eq cs _
end

theorem foldl_enqueue (l : List Hittable) (s : SceneRenderer) :
    l.foldl enqueue_hittable_render s =
      { s with
        hittable_render_queue := s.hittable_render_queue ++ l
        hittable_map :=
          (List.foldl (assign s.material_block_length)
            (s.hittable_map, s.hittable_block_length) (hittableEntries l)).1
        hittable_block_length :=
          (List.foldl (assign s.material_block_length)
            (s.hittable_map, s.hittable_block_length) (hittableEntries l)).2 } := by
  induction l generalizing s with
  | nil => simp [hittableEntries]
  | cons x xs ih =>
    rw [List.foldl_cons, ih]
    simp [enqueue_hittable_render, hittableEntries, assign]

/-! ## The drain loop and the breadth-first order -/

theorem weight_append (a b : List Hittable) : weight (a ++ b) = weight a + weight b := by
  induction a with
  | nil => simp [weight, Hittable.nodesList]
  | cons x xs ih =>
    simp only [weight] at ih
    simp only [weight, List.cons_append, List.append_eq, Hittable.nodesList,
      List.length_append]
    omega

theorem weight_cons (t : Hittable) (q : List Hittable) :
    weight (t :: q) = 1 + weight t.children + weight q := by
  cases t with
  | mk i st m cs =>
    simp only [weight, Hittable.nodesList, Hittable.nodes, Hittable.children,
      List.length_append, List.length_cons]
    omega

theorem weight_eq (q : List Hittable) :
    weight q = q.length + weight (q.flatMap Hittable.children) := by
  induction q with
  | nil => simp [weight, Hittable.nodesList]
  | cons x xs ih =>
    rw [List.flatMap_cons, weight_append, weight_cons, List.length_cons]
    omega

theorem levelOrder_unfold (q : List Hittable) :
    levelOrder q = q ++ levelOrder (q.flatMap Hittable.children) := by
  cases q with
  | nil => simp [levelOrder]
  | cons t ts => rw [levelOrder]

theorem levelOrder_append_aux (n : Nat) : ∀ a b : List Hittable, weight (a ++ b) ≤ n →
    levelOrder (a ++ b) = a ++ levelOrder (b ++ a.flatMap Hittable.children) := by
  induction n with
  | zero =>
    intro a b h
    have h0 := weight_eq (a ++ b)
    have hl : (a ++ b).length = 0 := by omega
    have hab : a ++ b = [] := List.length_eq_zero.mp hl
    have ha : a = [] := (List.append_eq_nil.mp hab).1
    have hb : b = [] := (List.append_eq_nil.mp hab).2
    subst ha
    subst hb
    simp
  | succ n ih =>
    intro a b h
    by_cases hab : a ++ b = []
    · have ha : a = [] := (List.append_eq_nil.mp hab).1
      have hb : b = [] := (List.append_eq_nil.mp hab).2
      subst ha
      subst hb
      simp
    · have h0 := weight_eq (a ++ b)
      have hl : 0 < (a ++ b).length := List.length_pos.mpr hab
      have hlt : weight (a.flatMap Hittable.children ++ b.flatMap Hittable.children) ≤ n := by
        rw [← List.flatMap_append]
        omega
      have h1 := ih (a.flatMap Hittable.children) (b.flatMap Hittable.children) hlt
      rw [levelOrder_unfold (a ++ b), List.flatMap_append, h1,
        levelOrder_unfold (b ++ a.flatMap Hittable.children), List.flatMap_append]
      simp [List.append_assoc]

theorem levelOrder_append (a b : List Hittable) :
    levelOrder (a ++ b) = a ++ levelOrder (b ++ a.flatMap Hittable.children) :=
  levelOrder_append_aux _ a b (Nat.le_refl _)

theorem drain_nil (s : SceneRenderer) (h : s.hittable_render_queue = []) : drain s = s := by
  rw [drain]
  split
  · rfl
  · rename_i next rest heq
    rw [h] at heq
    cases heq

theorem drain_cons (s : SceneRenderer) (next : Hittable) (rest : List Hittable)
    (h : s.hittable_render_queue = next :: rest) :
    drain s = drain (register_hittables next { s with hittable_render_queue := rest }) := by
  rw [drain]
  split
  · rename_i heq
    rw [h] at heq
    cases heq
  · rename_i n r heq
    rw [h] at heq
    cases heq
    rfl

theorem drain_eq_aux (n : Nat) : ∀ s : SceneRenderer, weight s.hittable_render_queue ≤ n →
    drain s =
      { (levelOrder (s.hittable_render_queue.flatMap Hittable.children)).foldl
          enqueue_hittable_render s with hittable_render_queue := [] } := by
  induction n with
  | zero =>
    intro s h
    have h0 := weight_eq s.hittable_render_queue
    have hl : s.hittable_render_queue.length = 0 := by omega
    have hq : s.hittable_render_queue = [] := List.length_eq_zero.mp hl
    rw [drain_nil s hq, hq]
    obtain ⟨t, hm, mm, q, hl, ml⟩ := s
    simp only at hq
    subst hq
    simp [levelOrder]
  | succ n ih =>
    intro s h
    cases hq : s.hittable_render_queue with
    | nil =>
      rw [drain_nil s hq]
      obtain ⟨t, hm, mm, q, hl, ml⟩ := s
      simp only at hq
      subst hq
      simp [levelOrder]
    | cons next rest =>
      rw [drain_cons s next rest hq]
      have hw : weight (register_hittables next
          { s with hittable_render_queue := rest }).hittable_render_queue ≤ n := by
        rw [hq, weight_cons] at h
        simp only [register_hittables, foldl_enqueue, weight_append]
        omega
      rw [ih _ hw]
      have hlist : levelOrder ((next :: rest).flatMap Hittable.children)
          = next.children ++ levelOrder ((rest ++ next.children).flatMap Hittable.children) := by
        rw [List.flatMap_cons, levelOrder_append, List.flatMap_append]
      rw [hlist]
      simp only [register_hittables, foldl_enqueue, hittableEntries, List.map_append,
        List.foldl_append]

theorem drain_eq (s : SceneRenderer) :
    drain s =
      { (levelOrder (s.hittable_render_queue.flatMap Hittable.children)).foldl
          enqueue_hittable_render s with hittable_render_queue := [] } :=
  drain_eq_aux _ s (Nat.le_refl _)

/-! ## Closed form of `layout` -/

theorem pop_all_eq (q : List Hittable) : pop_all q = [] := by
  induction q with
  | nil => rfl
  | cons x xs ih => simpa [pop_all] using ih

theorem foldl_assign_empty (base : Int) (l : List (Nat × Int)) :
    l.foldl (assign base) ([], 0) = (firstOffsets base l, sumStrides l) := by
  rw [foldl_assign]
  simp [OffsetMap.keys]

theorem layout_eq (s : SceneRenderer) :
    layout s =
      { target := s.target
        hittable_map :=
          firstOffsets (sumStrides (materialEntries s.target.get_root_hittable.registered_materials))
            (hittableEntries (breadthFirst s.target.get_root_hittable))
        material_map :=
          firstOffsets 0 (materialEntries s.target.get_root_hittable.registered_materials)
        hittable_render_queue := []
        hittable_block_length := sumStrides (hittableEntries (breadthFirst s.target.get_root_hittable))
        material_block_length :=
          sumStrides (materialEntries s.target.get_root_hittable.registered_materials) } := by
  have henq : ∀ (r : SceneRenderer) (h : Hittable),
      enqueue_hittable_render r h = [h].foldl enqueue_hittable_render r := fun _ _ => rfl
  have hbf : breadthFirst s.target.get_root_hittable
      = [s.target.get_root_hittable]
          ++ levelOrder ([s.target.get_root_hittable].flatMap Hittable.children) := by
    rw [breadthFirst, levelOrder_unfold]
  simp only [layout, pop_all_eq, register_materials_eq, foldl_register_material, drain_eq]
  rw [henq, foldl_enqueue]
  have hcat : ∀ (b : Int) (l1 l2 : List (Nat × Int)),
      l2.foldl (assign b) (firstOffsets b l1, sumStrides l1)
        = (firstOffsets b (l1 ++ l2), sumStrides (l1 ++ l2)) := by
    intro b l1 l2
    rw [← foldl_assign_empty, ← List.foldl_append, foldl_assign_empty]
  simp only [List.nil_append, foldl_assign_empty, foldl_enqueue, hcat, hbf, hittableEntries,
    List.map_append]

/-! ## C1: layout of the material block -/

/-- C1, as stated, fails: in the scene whose two spheres share one material of
stride 4, `layout()` leaves `material_block_length = 8`, while the only
material held in the map has stride 4. -/
theorem C1_shared_material_not_dense :
    (layout (fresh sharedMaterialScene)).material_map = [(7, 0)] ∧
    (layout (fresh sharedMaterialScene)).material_block_length = 8 ∧
    ¬ DenseMaterials sharedMaterialScene.get_root_hittable
        (layout (fresh sharedMaterialScene)) := by
  rw [layout_eq]
  decide

/-- C1, amended: after `layout()`, every registered material is a key of
`material_map` exactly once, in the order of first registration; its offset is
the sum of the strides of all registrations made before its first one;
`material_block_length` is the sum of the strides of all registrations
(a material registered twice counts twice); and when no material is registered
twice the block is dense as the claim says. -/
theorem C1_layout_material_offsets (s : SceneRenderer) :
    (∀ k, OffsetMap.find (layout s).material_map k
        = if k ∈ (materialEntries s.target.get_root_hittable.registered_materials).map Prod.fst
          then some (sumStrides
            (before k (materialEntries s.target.get_root_hittable.registered_materials)))
          else none) ∧
    OffsetMap.keys (layout s).material_map
      = firstOccurrences
          ((materialEntries s.target.get_root_hittable.registered_materials).map Prod.fst) ∧
    (layout s).material_block_length
      = sumStrides (materialEntries s.target.get_root_hittable.registered_materials) ∧
    (((materialEntries s.target.get_root_hittable.registered_materials).map Prod.fst).Nodup →
      DenseMaterials s.target.get_root_hittable (layout s)) := by
  rw [layout_eq]
  refine ⟨?_, ?_, rfl, ?_⟩
  · intro k
    simp only [find_firstOffsets, zero_add]
  · simp only [keys_firstOffsets]
  · intro h
    simp only [DenseMaterials, firstEntries_of_nodup _ h, firstOffsets_of_nodup _ _ h,
      and_self]

/-- C1, witness: the scene with two spheres and two distinct materials has no
repeated registration, and its material block is dense. -/
theorem C1_layout_material_offsets_witness :
    ((materialEntries
        (fresh twoMaterialScene).target.get_root_hittable.registered_materials).map
          Prod.fst).Nodup ∧
    DenseMaterials (fresh twoMaterialScene).target.get_root_hittable
      (layout (fresh twoMaterialScene)) :=
  ⟨by decide, (C1_layout_material_offsets (fresh twoMaterialScene)).2.2.2 (by decide)⟩

/-! ## The breadth-first order lists the nodes of the tree -/

theorem nodesList_append (a b : List Hittable) :
    Hittable.nodesList (a ++ b) = Hittable.nodesList a ++ Hittable.nodesList b := by
  induction a with
  | nil => simp [Hittable.nodesList]
  | cons x xs ih => simp [Hittable.nodesList, ih]

theorem nodes_eq (t : Hittable) : t.nodes = t :: Hittable.nodesList t.children := by
  cases t with
  | mk i st m cs => simp [Hittable.nodes, Hittable.children]

theorem nodesList_perm (q : List Hittable) :
    (Hittable.nodesList q).Perm (q ++ Hittable.nodesList (q.flatMap Hittable.children)) := by
  induction q with
  | nil => simp [Hittable.nodesList]
  | cons x xs ih =>
    simp only [Hittable.nodesList, nodes_eq, List.flatMap_cons, nodesList_append,
      List.cons_append]
    refine List.Perm.cons x ?_
    refine (List.Perm.append_left _ ih).trans ?_
    rw [← List.append_assoc, ← List.append_assoc]
    exact List.Perm.append_right _ List.perm_append_comm

theorem levelOrder_perm_aux (n : Nat) : ∀ q : List Hittable, weight q ≤ n →
    (levelOrder q).Perm (Hittable.nodesList q) := by
  induction n with
  | zero =>
    intro q h
    have h0 := weight_eq q
    have hl : q.length = 0 := by omega
    have hq : q = [] := List.length_eq_zero.mp hl
    subst hq
    simp [levelOrder, Hittable.nodesList]
  | succ n ih =>
    intro q h
    by_cases hq : q = []
    · subst hq
      simp [levelOrder, Hittable.nodesList]
    · have h0 := weight_eq q
      have hl : 0 < q.length := List.length_pos.mpr hq
      have h1 := ih (q.flatMap Hittable.children) (by omega)
      rw [levelOrder_unfold]
      exact (List.Perm.append_left q h1).trans (nodesList_perm q).symm

theorem breadthFirst_perm (root : Hittable) : (breadthFirst root).Perm root.nodes := by
  have h := levelOrder_perm_aux _ [root] (Nat.le_refl _)
  simpa [breadthFirst, Hittable.nodesList] using h

theorem nodup_breadthFirst (root : Hittable) (h : TreeShaped root) :
    ((hittableEntries (breadthFirst root)).map Prod.fst).Nodup := by
  have hp : ((hittableEntries (breadthFirst root)).map Prod.fst).Perm
      (root.nodes.map Hittable.id) := by
    simp only [hittableEntries, List.map_map]
    exact (breadthFirst_perm root).map _
  exact hp.nodup_iff.mpr h

/-! ## C2: layout of the hittable block of a tree-shaped scene -/

/-- C2: for a tree-shaped scene, after `layout()` the breadth-first order
lists every tree node once, `hittable_map` holds exactly the tree nodes, the
i-th node in breadth-first order sits at `material_block_length` plus the
strides of the nodes before it, and `hittable_block_length` is the sum of all
node strides. -/
theorem C2_layout_hittable_offsets (s : SceneRenderer)
    (h : TreeShaped s.target.get_root_hittable) :
    (breadthFirst s.target.get_root_hittable).Perm s.target.get_root_hittable.nodes ∧
    (∀ k, k ∈ OffsetMap.keys (layout s).hittable_map
        ↔ k ∈ s.target.get_root_hittable.nodes.map Hittable.id) ∧
    (layout s).hittable_map
      = denseOffsets (layout s).material_block_length
          (hittableEntries (breadthFirst s.target.get_root_hittable)) ∧
    (layout s).hittable_block_length
      = sumStrides (hittableEntries s.target.get_root_hittable.nodes) := by
  have hp := breadthFirst_perm s.target.get_root_hittable
  rw [layout_eq]
  refine ⟨hp, ?_, ?_, ?_⟩
  · intro k
    simp only [mem_keys_firstOffsets, hittableEntries, List.map_map]
    exact (hp.map _).mem_iff
  · simp only [firstOffsets_of_nodup _ _ (nodup_breadthFirst _ h)]
  · simp only [sumStrides, hittableEntries, List.map_map]
    exact (hp.map _).sum_eq

/-- C2, witness: the scene with a composite root and two spheres is
tree-shaped, and its hittable block is laid out breadth-first. -/
theorem C2_layout_hittable_offsets_witness :
    TreeShaped (fresh twoMaterialScene).target.get_root_hittable ∧
    (layout (fresh twoMaterialScene)).hittable_map
      = denseOffsets (layout (fresh twoMaterialScene)).material_block_length
          (hittableEntries (breadthFirst (fresh twoMaterialScene).target.get_root_hittable)) :=
  ⟨by decide, (C2_layout_hittable_offsets (fresh twoMaterialScene) (by decide)).2.2.1⟩

/-! ## C3: parents and children -/

theorem levelOrder_split_aux (n : Nat) : ∀ q : List Hittable, weight q ≤ n →
    ∀ P ∈ levelOrder q, ∀ C ∈ P.children,
      ∃ l1 l2 l3, levelOrder q = l1 ++ P :: l2 ++ C :: l3 := by
  induction n with
  | zero =>
    intro q h P hP
    have h0 := weight_eq q
    have hl : q.length = 0 := by omega
    have hq : q = [] := List.length_eq_zero.mp hl
    subst hq
    simp [levelOrder] at hP
  | succ n ih =>
    intro q h P hP C hC
    by_cases hq : q = []
    · subst hq
      simp [levelOrder] at hP
    · have h0 := weight_eq q
      have hl : 0 < q.length := List.length_pos.mpr hq
      rw [levelOrder_unfold] at hP ⊢
      rcases List.mem_append.mp hP with hin | hin
      · obtain ⟨a, b, hab⟩ := List.append_of_mem hin
        have hCq : C ∈ levelOrder (q.flatMap Hittable.children) := by
          rw [levelOrder_unfold]
          exact List.mem_append_left _ (List.mem_flatMap.mpr ⟨P, hin, hC⟩)
        obtain ⟨c1, c2, hc⟩ := List.append_of_mem hCq
        refine ⟨a, b ++ c1, c2, ?_⟩
        rw [hc]
        nth_rewrite 1 [hab]
        simp [List.append_assoc]
      · obtain ⟨l1, l2, l3, hl3⟩ := ih (q.flatMap Hittable.children) (by omega) P hin C hC
        refine ⟨q ++ l1, l2, l3, ?_⟩
        rw [hl3]
        simp [List.append_assoc]

theorem breadthFirst_split (root P C : Hittable) (hP : P ∈ root.nodes) (hC : C ∈ P.children) :
    ∃ l1 l2 l3, breadthFirst root = l1 ++ P :: l2 ++ C :: l3 :=
  levelOrder_split_aux _ [root] (Nat.le_refl _) P
    ((breadthFirst_perm root).mem_iff.mpr hP) C hC

theorem before_split (k : Nat) (st : Int) (a b : List (Nat × Int))
    (h : ∀ e ∈ a, e.1 ≠ k) : before k (a ++ (k, st) :: b) = a := by
  induction a with
  | nil => simp [before]
  | cons x xs ih =>
    have hx : x.1 ≠ k := h x (List.mem_cons_self x xs)
    have ih1 := ih (fun e he => h e (List.mem_cons_of_mem x he))
    simp only [before] at ih1
    simpa [before, List.takeWhile_cons, hx] using ih1

theorem find_split (base : Int) (k : Nat) (st : Int) (a b : List (Nat × Int))
    (h : ((a ++ (k, st) :: b).map Prod.fst).Nodup) :
    OffsetMap.find (firstOffsets base (a ++ (k, st) :: b)) k = some (base + sumStrides a) := by
  have hne : ∀ e ∈ a, e.1 ≠ k := by
    intro e he hek
    rw [List.map_append, List.map_cons] at h
    have hd := (List.nodup_append.mp h).2.2
    have hk : e.1 ∈ (k, st).1 :: List.map Prod.fst b := by
      rw [hek]
      exact List.mem_cons_self _ _
    exact hd (List.mem_map_of_mem Prod.fst he) hk
  rw [find_firstOffsets, before_split k st a b hne]
  simp

/-- C3, as stated, fails: (1) a sphere shared by the root and by a later
composite sits before that composite; (2) below a root of stride 0 the child
has the offset of the root; (3) with a negative stride in between, a child
sits before its parent. -/
theorem C3_parent_before_child_fails :
    ¬ ParentBeforeChild sharedChildScene.get_root_hittable
        (layout (fresh sharedChildScene)) ∧
    ¬ ParentBeforeChild zeroStrideScene.get_root_hittable
        (layout (fresh zeroStrideScene)) ∧
    ¬ ParentBeforeChild negativeStrideScene.get_root_hittable
        (layout (fresh negativeStrideScene)) := by
  have hb1 : breadthFirst (fresh sharedChildScene).target.get_root_hittable
      = [Hittable.mk 0 1 [] [Hittable.mk 1 2 [] [], Hittable.mk 2 3 [] [Hittable.mk 1 2 [] []]],
         Hittable.mk 1 2 [] [], Hittable.mk 2 3 [] [Hittable.mk 1 2 [] []],
         Hittable.mk 1 2 [] []] := by
    simp [breadthFirst, levelOrder, Hittable.children, sharedChildScene, fresh,
      Scene.get_root_hittable]
  have hb2 : breadthFirst (fresh zeroStrideScene).target.get_root_hittable
      = [Hittable.mk 0 0 [] [Hittable.mk 1 6 [{ id := 7, stride := 4 }] []],
         Hittable.mk 1 6 [{ id := 7, stride := 4 }] []] := by
    simp [breadthFirst, levelOrder, Hittable.children, zeroStrideScene, fresh,
      Scene.get_root_hittable]
  have hb3 : breadthFirst (fresh negativeStrideScene).target.get_root_hittable
      = [Hittable.mk 0 1 [] [Hittable.mk 1 (-5) [] [], Hittable.mk 2 1 [] []],
         Hittable.mk 1 (-5) [] [], Hittable.mk 2 1 [] []] := by
    simp [breadthFirst, levelOrder, Hittable.children, negativeStrideScene, fresh,
      Scene.get_root_hittable]
  refine ⟨?_, ?_, ?_⟩
  · intro h
    obtain ⟨oP, oC, h1, h2, h3⟩ :=
      h (Hittable.mk 2 3 [] [Hittable.mk 1 2 [] []]) (by simp [sharedChildScene,
        Scene.get_root_hittable, Hittable.nodes, Hittable.nodesList])
        (Hittable.mk 1 2 [] []) (by simp [Hittable.children])
    rw [layout_eq, hb1] at h1 h2
    have e1 : oP = 3 := by
      have : some (3 : Int) = some oP := h1
      exact (Option.some.inj this).symm
    have e2 : oC = 1 := by
      have : some (1 : Int) = some oC := h2
      exact (Option.some.inj this).symm
    omega
  · intro h
    obtain ⟨oP, oC, h1, h2, h3⟩ :=
      h (Hittable.mk 0 0 [] [Hittable.mk 1 6 [{ id := 7, stride := 4 }] []])
        (by simp [zeroStrideScene, Scene.get_root_hittable, Hittable.nodes])
        (Hittable.mk 1 6 [{ id := 7, stride := 4 }] []) (by simp [Hittable.children])
    rw [layout_eq, hb2] at h1 h2
    have e1 : oP = 4 := by
      have : some (4 : Int) = some oP := h1
      exact (Option.some.inj this).symm
    have e2 : oC = 4 := by
      have : some (4 : Int) = some oC := h2
      exact (Option.some.inj this).symm
    omega
  · intro h
    obtain ⟨oP, oC, h1, h2, h3⟩ :=
      h (Hittable.mk 0 1 [] [Hittable.mk 1 (-5) [] [], Hittable.mk 2 1 [] []])
        (by simp [negativeStrideScene, Scene.get_root_hittable, Hittable.nodes])
        (Hittable.mk 2 1 [] []) (by simp [Hittable.children])
    rw [layout_eq, hb3] at h1 h2
    have e1 : oP = 0 := by
      have : some (0 : Int) = some oP := h1
      exact (Option.some.inj this).symm
    have e2 : oC = -4 := by
      have : some (-4 : Int) = some oC := h2
      exact (Option.some.inj this).symm
    omega

/-- C3, amended: in a tree-shaped scene whose strides are all non-negative,
every composite `P` and each child `C` of it have offsets with
`offset(P) + stride(P) ≤ offset(C)`; so `offset(P) < offset(C)` whenever the
stride of `P` is positive. -/
theorem C3_parent_before_child_tree (s : SceneRenderer)
    (htree : TreeShaped s.target.get_root_hittable)
    (hnn : ∀ n ∈ s.target.get_root_hittable.nodes, 0 ≤ n.get_gl_buffer_stride)
    (P C : Hittable) (hP : P ∈ s.target.get_root_hittable.nodes) (hC : C ∈ P.children) :
    ∃ oP oC : Int,
      OffsetMap.find (layout s).hittable_map P.id = some oP ∧
      OffsetMap.find (layout s).hittable_map C.id = some oC ∧
      oP + P.get_gl_buffer_stride ≤ oC ∧ (0 < P.get_gl_buffer_stride → oP < oC) := by
  obtain ⟨l1, l2, l3, hsplit⟩ := breadthFirst_split _ P C hP hC
  have hnd := nodup_breadthFirst _ htree
  have hmem : ∀ n ∈ l2, n ∈ s.target.get_root_hittable.nodes := by
    intro n hn
    apply (breadthFirst_perm s.target.get_root_hittable).mem_iff.mp
    rw [hsplit]
    simp [hn]
  have hl2 : 0 ≤ sumStrides (hittableEntries l2) := by
    apply sumStrides_nonneg
    intro e he
    simp only [hittableEntries, List.mem_map] at he
    obtain ⟨n, hn, rfl⟩ := he
    exact hnn n (hmem n hn)
  have hE1 : hittableEntries (breadthFirst s.target.get_root_hittable)
      = hittableEntries l1 ++ (P.id, P.get_gl_buffer_stride)
          :: (hittableEntries l2 ++ (C.id, C.get_gl_buffer_stride) :: hittableEntries l3) := by
    rw [hsplit]
    simp [hittableEntries]
  have hE2 : hittableEntries (breadthFirst s.target.get_root_hittable)
      = (hittableEntries l1 ++ (P.id, P.get_gl_buffer_stride) :: hittableEntries l2)
          ++ (C.id, C.get_gl_buffer_stride) :: hittableEntries l3 := by
    rw [hE1]
    simp
  have hfP := find_split
    (sumStrides (materialEntries s.target.get_root_hittable.registered_materials))
    P.id P.get_gl_buffer_stride (hittableEntries l1)
    (hittableEntries l2 ++ (C.id, C.get_gl_buffer_stride) :: hittableEntries l3)
    (hE1 ▸ hnd)
  have hfC := find_split
    (sumStrides (materialEntries s.target.get_root_hittable.registered_materials))
    C.id C.get_gl_buffer_stride
    (hittableEntries l1 ++ (P.id, P.get_gl_buffer_stride) :: hittableEntries l2)
    (hittableEntries l3) (hE2 ▸ hnd)
  rw [← hE1] at hfP
  rw [← hE2] at hfC
  rw [layout_eq]
  refine ⟨_, _, hfP, hfC, ?_, ?_⟩
  · rw [sumStrides_append, sumStrides_cons]
    simp only []
    omega
  · intro hpos
    rw [sumStrides_append, sumStrides_cons]
    simp only []
    omega

/-- C3, witness: in the tree-shaped scene with a composite root (stride 1) and
two spheres, the second sphere sits behind the root. -/
theorem C3_parent_before_child_tree_witness :
    TreeShaped (fresh twoMaterialScene).target.get_root_hittable ∧
    ∃ oP oC : Int,
      OffsetMap.find (layout (fresh twoMaterialScene)).hittable_map
        (fresh twoMaterialScene).target.get_root_hittable.id = some oP ∧
      OffsetMap.find (layout (fresh twoMaterialScene)).hittable_map
        (Hittable.mk 2 6 [{ id := 8, stride := 5 }] []).id = some oC ∧
      oP + (fresh twoMaterialScene).target.get_root_hittable.get_gl_buffer_stride ≤ oC ∧
      (0 < (fresh twoMaterialScene).target.get_root_hittable.get_gl_buffer_stride → oP < oC) :=
  ⟨by decide,
    C3_parent_before_child_tree (fresh twoMaterialScene) (by decide)
      (by
        intro n hn
        simp [fresh, twoMaterialScene, Scene.get_root_hittable, Hittable.nodes,
          Hittable.nodesList] at hn
        rcases hn with rfl | rfl | rfl <;> simp [Hittable.get_gl_buffer_stride])
      (fresh twoMaterialScene).target.get_root_hittable
      (Hittable.mk 2 6 [{ id := 8, stride := 5 }] [])
      (by simp [fresh, twoMaterialScene, Scene.get_root_hittable, Hittable.nodes])
      (by simp [fresh, twoMaterialScene, Scene.get_root_hittable, Hittable.children])⟩

/-! ## Closed form of `render` -/

theorem foldl_material_render (m : OffsetMap) (b : SceneBuffer) :
    m.foldl SceneBuffer.material_render b
      = { b with calls := b.calls ++ m.map (fun e => BufferCall.material_render e.1 e.2) } := by
  induction m generalizing b with
  | nil => simp
  | cons x xs ih => simp [ih, SceneBuffer.material_render]

theorem foldl_hittable_render (m : OffsetMap) (b : SceneBuffer) :
    m.foldl SceneBuffer.hittable_render b
      = { b with calls := b.calls ++ m.map (fun e => BufferCall.hittable_render e.1 e.2) } := by
  induction m generalizing b with
  | nil => simp
  | cons x xs ih => simp [ih, SceneBuffer.hittable_render]

theorem render_fst (s : SceneRenderer) (b : SceneBuffer) :
    (render s b).1 = if stale s then layout s else s := rfl

theorem render_snd (s : SceneRenderer) (b : SceneBuffer) :
    (render s b).2 =
      { capacity :=
          max b.capacity
            ((render s b).1.material_block_length + (render s b).1.hittable_block_length)
        entry_hittable_index := (render s b).1.material_block_length
        needs_synchronize := true
        calls := b.calls ++ renderCalls (render s b).1 } := by
  simp only [render, foldl_material_render, foldl_hittable_render,
    SceneBuffer.set_needs_synchronize, SceneBuffer.set_entry_hittable_index,
    SceneBuffer.require_capacity, renderCalls]
  simp [List.append_assoc]

theorem layout_target (s : SceneRenderer) : (layout s).target = s.target := by
  rw [layout_eq]

theorem layout_congr (s1 s2 : SceneRenderer) (h : s1.target = s2.target) :
    layout s1 = layout s2 := by
  rw [layout_eq s1, layout_eq s2, h]

theorem layout_idem (s : SceneRenderer) : layout (layout s) = layout s :=
  layout_congr _ _ (layout_target s)

theorem render_layout_fst (s : SceneRenderer) (b : SceneBuffer) :
    (render (layout s) b).1 = layout s := by
  rw [render_fst]
  split
  · exact layout_idem s
  · rfl

/-! ## C4: the entry offset recorded by `render` -/

/-- C4: for every scene, every prior renderer state and every buffer, after
`render(buffer)` the entry hittable index of the buffer equals the renderer's
`material_block_length`; that length is the one just computed by `layout()`
(the sum of the strides of all material registrations) when the prior state
was stale, and the one already in force otherwise. -/
theorem C4_entry_index_is_material_block_length (s : SceneRenderer) (b : SceneBuffer) :
    (render s b).2.get_entry_hittable_index = (render s b).1.material_block_length ∧
    (render s b).1.material_block_length
      = if stale s
        then sumStrides (materialEntries s.target.get_root_hittable.registered_materials)
        else s.material_block_length := by
  refine ⟨?_, ?_⟩
  · rw [render_snd]
    rfl
  · rw [render_fst]
    split
    · rw [layout_eq]
    · rfl

/-! ## C5: the root is the first hittable record -/

theorem breadthFirst_cons (root : Hittable) :
    breadthFirst root = root :: levelOrder root.children := by
  rw [breadthFirst, levelOrder_unfold]
  simp

/-- C5: for every scene, after `layout()` followed by `render(buffer)`, the
root is the first entry of `hittable_map`, its offset is
`material_block_length`, and that is the entry offset of the buffer. -/
theorem C5_entry_index_is_root_offset (s : SceneRenderer) (b : SceneBuffer) :
    (layout s).hittable_map.head?
      = some (s.target.get_root_hittable.id, (layout s).material_block_length) ∧
    OffsetMap.find (layout s).hittable_map s.target.get_root_hittable.id
      = some (layout s).material_block_length ∧
    OffsetMap.find (render (layout s) b).1.hittable_map s.target.get_root_hittable.id
      = some (render (layout s) b).2.get_entry_hittable_index := by
  have h1 : (layout s).hittable_map.head?
      = some (s.target.get_root_hittable.id, (layout s).material_block_length) := by
    rw [layout_eq, breadthFirst_cons]
    simp [hittableEntries, firstOffsets]
  have h2 : OffsetMap.find (layout s).hittable_map s.target.get_root_hittable.id
      = some (layout s).material_block_length := by
    rw [layout_eq, breadthFirst_cons]
    simp [hittableEntries, firstOffsets, OffsetMap.find, List.lookup_cons]
  refine ⟨h1, h2, ?_⟩
  rw [render_snd, render_layout_fst]
  exact h2

/-! ## C6: `layout` does not depend on the prior state -/

/-- C6: for a fixed scene, `layout()` run from any two renderer states (any
maps, any queue, any lengths) gives the same state, and `layout()` applied
twice gives the same as applied once. -/
theorem C6_layout_deterministic (t : Scene) (hm1 mm1 hm2 mm2 : OffsetMap)
    (q1 q2 : List Hittable) (hl1 ml1 hl2 ml2 : Int) :
    layout { target := t, hittable_map := hm1, material_map := mm1,
             hittable_render_queue := q1, hittable_block_length := hl1,
             material_block_length := ml1 }
      = layout { target := t, hittable_map := hm2, material_map := mm2,
                 hittable_render_queue := q2, hittable_block_length := hl2,
                 material_block_length := ml2 } ∧
    layout (layout { target := t, hittable_map := hm1, material_map := mm1,
                     hittable_render_queue := q1, hittable_block_length := hl1,
                     material_block_length := ml1 })
      = layout { target := t, hittable_map := hm1, material_map := mm1,
                 hittable_render_queue := q1, hittable_block_length := hl1,
                 material_block_length := ml1 } :=
  ⟨layout_congr _ _ rfl, layout_idem _⟩

/-! ## C7: `render` lays out exactly when stale -/

theorem layout_not_stale (s : SceneRenderer) (h : NonNegStrides s.target.get_root_hittable) :
    ¬ stale (layout s) := by
  have h1 : 0 ≤ sumStrides (materialEntries s.target.get_root_hittable.registered_materials) := by
    apply sumStrides_nonneg
    intro e he
    simp only [materialEntries, List.mem_map] at he
    obtain ⟨m, hm, rfl⟩ := he
    exact h.1 m hm
  have h2 : 0 ≤ sumStrides (hittableEntries (breadthFirst s.target.get_root_hittable)) := by
    apply sumStrides_nonneg
    intro e he
    simp only [hittableEntries, List.mem_map] at he
    obtain ⟨n, hn, rfl⟩ := he
    exact h.2 n ((breadthFirst_perm _).mem_iff.mp hn)
  rw [layout_eq]
  simp only [stale, not_or, not_lt]
  exact ⟨h1, h2⟩

theorem render_not_stale (s : SceneRenderer) (b : SceneBuffer)
    (h : NonNegStrides s.target.get_root_hittable) : ¬ stale (render s b).1 := by
  rw [render_fst]
  split
  · exact layout_not_stale s h
  · assumption

/-- C7: `render` runs `layout()` exactly when the state is stale (a negative
length) and otherwise leaves the renderer unchanged; for a scene with
non-negative strides the state after `render` is not stale, a second `render`
leaves it unchanged, and both calls issue the same buffer calls (same
capacity, same entry offset, same writes) and record the same entry offset. -/
theorem C7_render_layout_iff_stale (s : SceneRenderer) (b b2 : SceneBuffer) :
    (render s b).1 = (if stale s then layout s else s) ∧
    (NonNegStrides s.target.get_root_hittable →
      ¬ stale (render s b).1 ∧
      (render (render s b).1 b2).1 = (render s b).1 ∧
      (render s b).2.calls = b.calls ++ renderCalls (render s b).1 ∧
      (render (render s b).1 b2).2.calls = b2.calls ++ renderCalls (render s b).1 ∧
      (render (render s b).1 b2).2.get_entry_hittable_index
        = (render s b).2.get_entry_hittable_index) := by
  refine ⟨render_fst s b, ?_⟩
  intro h
  have hns := render_not_stale s b h
  have h2 : (render (render s b).1 b2).1 = (render s b).1 := by
    rw [render_fst (render s b).1 b2, if_neg hns]
  refine ⟨hns, h2, ?_, ?_, ?_⟩
  · rw [render_snd]
  · rw [render_snd, h2]
  · rw [render_snd (render s b).1 b2, render_snd s b, h2]
    rfl

/-- C7, witness: the scene with two spheres has non-negative strides; its
first `render` leaves a state that is not stale. -/
theorem C7_render_layout_iff_stale_witness :
    NonNegStrides (fresh twoMaterialScene).target.get_root_hittable ∧
    ¬ stale (render (fresh twoMaterialScene)
        { capacity := 0, entry_hittable_index := 0, needs_synchronize := false,
          calls := [] }).1 :=
  ⟨by decide,
    ((C7_render_layout_iff_stale (fresh twoMaterialScene)
      { capacity := 0, entry_hittable_index := 0, needs_synchronize := false, calls := [] }
      { capacity := 0, entry_hittable_index := 0, needs_synchronize := false, calls := [] }).2
      (by decide)).1⟩

/-! ## C8: order of the buffer calls of `render` -/

theorem find_of_mem_firstOffsets (base : Int) (l : List (Nat × Int)) :
    ∀ e ∈ firstOffsets base l, OffsetMap.find (firstOffsets base l) e.1 = some e.2 := by
  induction l generalizing base with
  | nil =>
    intro e he
    simp [firstOffsets] at he
  | cons x xs ih =>
    obtain ⟨k, st⟩ := x
    intro e he
    simp only [firstOffsets, List.mem_cons, List.mem_filter] at he
    rcases he with rfl | ⟨hin, hne⟩
    · simp [firstOffsets, OffsetMap.find, List.lookup_cons]
    · have hne1 : e.1 ≠ k := by simpa using hne
      have hbeq : (e.1 == k) = false := by simpa using hne1
      have hkeep : ∀ a : Nat × Int, a.1 = e.1 →
          (fun a : Nat × Int => decide (a.1 ≠ k)) a = true := by
        intro a ha
        simpa [ha] using hne1
      have h := ih (base + st) e hin
      simp only [OffsetMap.find] at h
      simp only [firstOffsets, OffsetMap.find, List.lookup_cons, hbeq,
        lookup_filter_keep e.1 _ _ hkeep, h]

/-- C8: the buffer calls of `render`, in order, are: the capacity request for
`material_block_length + hittable_block_length`, the entry offset, one write
for each entry of `material_map` in map order, then one write for each entry
of `hittable_map` in map order, and last the request for synchronization.
After a layout each map holds every registered entity exactly once, in the
order of first registration (depth-first call order for materials,
breadth-first enqueue order for hittables), and the offset passed to a write
is the one the map assigns to that entity. -/
theorem C8_render_call_order (s : SceneRenderer) (b : SceneBuffer) :
    (render s b).2.calls
      = b.calls
        ++ [BufferCall.require_capacity
              ((render s b).1.material_block_length + (render s b).1.hittable_block_length),
            BufferCall.set_entry_hittable_index (render s b).1.material_block_length]
        ++ (render s b).1.material_map.map (fun e => BufferCall.material_render e.1 e.2)
        ++ (render s b).1.hittable_map.map (fun e => BufferCall.hittable_render e.1 e.2)
        ++ [BufferCall.set_needs_synchronize] ∧
    (render s b).2.needs_synchronize = true ∧
    (render s b).1 = (if stale s then layout s else s) ∧
    OffsetMap.keys (layout s).material_map
      = firstOccurrences
          (s.target.get_root_hittable.registered_materials.map Material.id) ∧
    OffsetMap.keys (layout s).hittable_map
      = firstOccurrences ((breadthFirst s.target.get_root_hittable).map Hittable.id) ∧
    (OffsetMap.keys (layout s).material_map).Nodup ∧
    (OffsetMap.keys (layout s).hittable_map).Nodup ∧
    (∀ e ∈ (layout s).material_map, OffsetMap.find (layout s).material_map e.1 = some e.2) ∧
    (∀ e ∈ (layout s).hittable_map, OffsetMap.find (layout s).hittable_map e.1 = some e.2) := by
  have hk1 : OffsetMap.keys (layout s).material_map
      = firstOccurrences
          (s.target.get_root_hittable.registered_materials.map Material.id) := by
    rw [layout_eq]
    simp only [keys_firstOffsets, materialEntries, List.map_map]
    rfl
  have hk2 : OffsetMap.keys (layout s).hittable_map
      = firstOccurrences ((breadthFirst s.target.get_root_hittable).map Hittable.id) := by
    rw [layout_eq]
    simp only [keys_firstOffsets, hittableEntries, List.map_map]
    rfl
  refine ⟨?_, ?_, render_fst s b, hk1, hk2, ?_, ?_, ?_, ?_⟩
  · rw [render_snd]
    simp [renderCalls, List.append_assoc]
  · rw [render_snd]
  · rw [hk1]
    exact nodup_firstOccurrences _
  · rw [hk2]
    exact nodup_firstOccurrences _
  · rw [layout_eq]
    exact find_of_mem_firstOffsets _ _
  · rw [layout_eq]
    exact find_of_mem_firstOffsets _ _

/-! ## C9: the example scenario -/

/-- C9: in the example scene (material `m` of stride 4, composite root `r` of
stride `sr`, one child sphere `c` of stride 6 referencing `m`), from any prior
state, `layout()` gives offset(m) = 0, `material_block_length = 4`,
offset(root) = 4 and offset(sphere) = 4 + sr; `render` then records the entry
index 4 and requests the capacity 4 + sr + 6 as its first buffer call. -/
theorem C9_example_scenario (m r c : Nat) (sr : Int) (hrc : r ≠ c)
    (hm mm : OffsetMap) (q : List Hittable) (hl ml : Int) (b : SceneBuffer) :
    OffsetMap.find
      (layout { target := exampleScene m r c sr, hittable_map := hm, material_map := mm,
                hittable_render_queue := q, hittable_block_length := hl,
                material_block_length := ml }).material_map m = some 0 ∧
    (layout { target := exampleScene m r c sr, hittable_map := hm, material_map := mm,
              hittable_render_queue := q, hittable_block_length := hl,
              material_block_length := ml }).material_block_length = 4 ∧
    OffsetMap.find
      (layout { target := exampleScene m r c sr, hittable_map := hm, material_map := mm,
                hittable_render_queue := q, hittable_block_length := hl,
                material_block_length := ml }).hittable_map r = some 4 ∧
    OffsetMap.find
      (layout { target := exampleScene m r c sr, hittable_map := hm, material_map := mm,
                hittable_render_queue := q, hittable_block_length := hl,
                material_block_length := ml }).hittable_map c = some (4 + sr) ∧
    (render
      (layout { target := exampleScene m r c sr, hittable_map := hm, material_map := mm,
                hittable_render_queue := q, hittable_block_length := hl,
                material_block_length := ml }) b).2.get_entry_hittable_index = 4 ∧
    ((render
      (layout { target := exampleScene m r c sr, hittable_map := hm, material_map := mm,
                hittable_render_queue := q, hittable_block_length := hl,
                material_block_length := ml }) b).2.calls.drop b.calls.length).head?
      = some (BufferCall.require_capacity (4 + sr + 6)) ∧
    (render (fresh (exampleScene m r c sr)) b).2.get_entry_hittable_index = 4 := by
  have hb : ∀ s : SceneRenderer, s.target = exampleScene m r c sr →
      breadthFirst s.target.get_root_hittable
        = [Hittable.mk r sr [] [Hittable.mk c 6 [{ id := m, stride := 4 }] []],
           Hittable.mk c 6 [{ id := m, stride := 4 }] []] := by
    intro s hs
    rw [hs]
    simp [breadthFirst, levelOrder, Hittable.children, exampleScene, Scene.get_root_hittable]
  have hreg : ∀ s : SceneRenderer, s.target = exampleScene m r c sr →
      materialEntries s.target.get_root_hittable.registered_materials = [(m, 4)] := by
    intro s hs
    rw [hs]
    simp [materialEntries, exampleScene, Scene.get_root_hittable,
      Hittable.registered_materials, Hittable.registered_materialsList,
      Material.get_gl_buffer_stride]
  have hcr : (c == r) = false := by
    simpa using fun e : c = r => hrc e.symm
  have hlay : ∀ s : SceneRenderer, s.target = exampleScene m r c sr →
      layout s =
        { target := exampleScene m r c sr
          hittable_map := [(r, 4), (c, 4 + sr)]
          material_map := [(m, 0)]
          hittable_render_queue := []
          hittable_block_length := sr + 6
          material_block_length := 4 } := by
    intro s hs
    have hrc1 : ¬ c = r := fun e => hrc e.symm
    rw [layout_eq, hb s hs, hreg s hs, hs]
    simp [hittableEntries, firstOffsets, sumStrides, Hittable.id,
      Hittable.get_gl_buffer_stride, hrc1]
  have hfresh : (render (fresh (exampleScene m r c sr)) b).1
      = layout (fresh (exampleScene m r c sr)) := by
    rw [render_fst]
    simp [stale, fresh]
  rw [render_snd (fresh (exampleScene m r c sr)) b, hfresh, render_snd, render_layout_fst,
    hlay _ rfl, hlay _ rfl]
  refine ⟨?_, rfl, ?_, ?_, rfl, ?_, rfl⟩
  · simp [OffsetMap.find, List.lookup_cons]
  · simp [OffsetMap.find, List.lookup_cons]
  · simp [OffsetMap.find, List.lookup_cons, hcr]
  · simp [renderCalls]
    omega

/-- C9, witness: the example scenario with identities 7 (material), 0 (root)
and 1 (sphere), a root of stride 2, from a fresh renderer and an empty
buffer. -/
theorem C9_example_scenario_witness :
    (0 : Nat) ≠ 1 ∧
    (layout (fresh (exampleScene 7 0 1 2))).material_block_length = 4 ∧
    OffsetMap.find (layout (fresh (exampleScene 7 0 1 2))).hittable_map 1 = some (4 + 2) :=
  ⟨by decide,
    (C9_example_scenario 7 0 1 2 (by decide) [] [] [] (-1) (-1)
      { capacity := 0, entry_hittable_index := 0, needs_synchronize := false,
        calls := [] }).2.1,
    (C9_example_scenario 7 0 1 2 (by decide) [] [] [] (-1) (-1)
      { capacity := 0, entry_hittable_index := 0, needs_synchronize := false,
        calls := [] }).2.2.2.1⟩

/-! ## C10: the two blocks are separated and in bounds -/

theorem le_sumStrides_of_mem (l : List (Nat × Int)) (hnn : ∀ e ∈ l, 0 ≤ e.2)
    (e : Nat × Int) (he : e ∈ l) : e.2 ≤ sumStrides l := by
  induction l with
  | nil => simp at he
  | cons x xs ih =>
    rw [sumStrides_cons]
    have hx := hnn x (List.mem_cons_self x xs)
    have hxs : ∀ a ∈ xs, 0 ≤ a.2 := fun a ha => hnn a (List.mem_cons_of_mem x ha)
    have hs := sumStrides_nonneg xs hxs
    rcases List.mem_cons.mp he with rfl | hin
    · omega
    · have := ih hxs hin
      omega

theorem before_bounds (l : List (Nat × Int)) (hnn : ∀ e ∈ l, 0 ≤ e.2)
    (e : Nat × Int) (he : e ∈ l) :
    0 ≤ sumStrides (before e.1 l) ∧ sumStrides (before e.1 l) + e.2 ≤ sumStrides l := by
  induction l with
  | nil => simp at he
  | cons x xs ih =>
    have hx := hnn x (List.mem_cons_self x xs)
    have hxs : ∀ a ∈ xs, 0 ≤ a.2 := fun a ha => hnn a (List.mem_cons_of_mem x ha)
    by_cases hk : x.1 = e.1
    · have hb : before e.1 (x :: xs) = [] := by
        simp [before, List.takeWhile_cons, hk]
      have hle := le_sumStrides_of_mem (x :: xs) hnn e he
      rw [hb, sumStrides_nil]
      omega
    · have hb : before e.1 (x :: xs) = x :: before e.1 xs := by
        simp [before, List.takeWhile_cons, hk]
      have hin : e ∈ xs := by
        rcases List.mem_cons.mp he with rfl | hin
        · exact absurd rfl hk
        · exact hin
      have h := ih hxs hin
      rw [hb, sumStrides_cons, sumStrides_cons]
      omega

theorem region_in_block (base : Int) (l : List (Nat × Int)) (hnn : ∀ e ∈ l, 0 ≤ e.2)
    (e : Nat × Int) (he : e ∈ l) :
    ∃ off : Int, OffsetMap.find (firstOffsets base l) e.1 = some off ∧
      base ≤ off ∧ off + e.2 ≤ base + sumStrides l := by
  have hmem : e.1 ∈ l.map Prod.fst := List.mem_map_of_mem Prod.fst he
  have hb := before_bounds l hnn e he
  refine ⟨base + sumStrides (before e.1 l), ?_, ?_, ?_⟩
  · rw [find_firstOffsets, if_pos hmem]
  · omega
  · omega

/-- C10: after `layout()` on a scene with non-negative strides, every
registered material has an offset whose region `[offset, offset + stride)`
lies in `[0, material_block_length)`, every node has an offset whose region
lies in `[material_block_length, material_block_length + hittable_block_length)`,
and `render` asks the buffer for the capacity
`material_block_length + hittable_block_length` as its first call and leaves
the buffer with at least that capacity. -/
theorem C10_regions_in_bounds (s : SceneRenderer) (b : SceneBuffer)
    (h : NonNegStrides s.target.get_root_hittable) :
    (∀ m ∈ s.target.get_root_hittable.registered_materials, ∃ off : Int,
      OffsetMap.find (layout s).material_map m.id = some off ∧
      0 ≤ off ∧ off + m.get_gl_buffer_stride ≤ (layout s).material_block_length) ∧
    (∀ n ∈ s.target.get_root_hittable.nodes, ∃ off : Int,
      OffsetMap.find (layout s).hittable_map n.id = some off ∧
      (layout s).material_block_length ≤ off ∧
      off + n.get_gl_buffer_stride
        ≤ (layout s).material_block_length + (layout s).hittable_block_length) ∧
    ((render (layout s) b).2.calls.drop b.calls.length).head?
      = some (BufferCall.require_capacity
          ((layout s).material_block_length + (layout s).hittable_block_length)) ∧
    (layout s).material_block_length + (layout s).hittable_block_length
      ≤ (render (layout s) b).2.capacity := by
  have hm : ∀ e ∈ materialEntries s.target.get_root_hittable.registered_materials,
      0 ≤ e.2 := by
    intro e he
    simp only [materialEntries, List.mem_map] at he
    obtain ⟨m, hm, rfl⟩ := he
    exact h.1 m hm
  have hh : ∀ e ∈ hittableEntries (breadthFirst s.target.get_root_hittable), 0 ≤ e.2 := by
    intro e he
    simp only [hittableEntries, List.mem_map] at he
    obtain ⟨n, hn, rfl⟩ := he
    exact h.2 n ((breadthFirst_perm _).mem_iff.mp hn)
  refine ⟨?_, ?_, ?_, ?_⟩
  · intro m hmem
    have he : (m.id, m.get_gl_buffer_stride)
        ∈ materialEntries s.target.get_root_hittable.registered_materials :=
      List.mem_map_of_mem (fun m : Material => (m.id, m.get_gl_buffer_stride)) hmem
    obtain ⟨off, h1, h2, h3⟩ := region_in_block 0 _ hm _ he
    rw [layout_eq]
    exact ⟨off, h1, h2, by simpa using h3⟩
  · intro n hmem
    have he : (n.id, n.get_gl_buffer_stride)
        ∈ hittableEntries (breadthFirst s.target.get_root_hittable) :=
      List.mem_map_of_mem (fun h : Hittable => (h.id, h.get_gl_buffer_stride))
        ((breadthFirst_perm _).mem_iff.mpr hmem)
    obtain ⟨off, h1, h2, h3⟩ := region_in_block
      (sumStrides (materialEntries s.target.get_root_hittable.registered_materials)) _ hh _ he
    rw [layout_eq]
    exact ⟨off, h1, h2, h3⟩
  · rw [render_snd, render_layout_fst]
    simp [renderCalls]
  · rw [render_snd, render_layout_fst]
    exact le_max_right _ _

/-- C10, witness: the scene with two spheres has non-negative strides; its
second material (stride 5) lies inside the material block. -/
theorem C10_regions_in_bounds_witness :
    NonNegStrides (fresh twoMaterialScene).target.get_root_hittable ∧
    ∃ off : Int,
      OffsetMap.find (layout (fresh twoMaterialScene)).material_map
        (Material.mk 8 5).id = some off ∧
      0 ≤ off ∧
      off + (Material.mk 8 5).get_gl_buffer_stride
        ≤ (layout (fresh twoMaterialScene)).material_block_length :=
  ⟨by decide,
    (C10_regions_in_bounds (fresh twoMaterialScene)
      { capacity := 0, entry_hittable_index := 0, needs_synchronize := false, calls := [] }
      (by decide)).1 (Material.mk 8 5) (by decide)⟩

/-! ## C11: one call of `register_material` -/

theorem find_eq_none_of_not_mem (m : OffsetMap) (k : Nat) (h : k ∉ OffsetMap.keys m) :
    OffsetMap.find m k = none := by
  induction m with
  | nil => rfl
  | cons x xs ih =>
    obtain ⟨j, v⟩ := x
    simp only [OffsetMap.keys, List.map_cons, List.mem_cons, not_or] at h
    have hne : (k == j) = false := by simpa using h.1
    have h2 := ih h.2
    simp only [OffsetMap.find] at h2
    simp only [OffsetMap.find, List.lookup_cons, hne, h2]

theorem find_append_single (m : OffsetMap) (j k : Nat) (v : Int) :
    OffsetMap.find (m ++ [(j, v)]) k
      = (OffsetMap.find m k).or (if k = j then some v else none) := by
  simp only [OffsetMap.find, List.lookup_append, List.lookup_cons, List.lookup_nil]
  by_cases h : k = j
  · simp [h]
  · have hne : (k == j) = false := by simpa using h
    simp [h, hne]

/-- C11: `register_material(material)`: when the material is not yet a key of
`material_map`, the map gains the one entry (material, `material_block_length`
before the call) behind the entries it had, so the material is found at that
offset and every other key is found as before; when it is already a key, the
map is unchanged.  In both cases `material_block_length` grows by the stride of
the material, and `hittable_map`, `hittable_block_length`, the render queue and
the target are unchanged. -/
theorem C11_register_material (s : SceneRenderer) (material : Material) :
    (material.id ∉ OffsetMap.keys s.material_map →
      (register_material s material).material_map
        = s.material_map ++ [(material.id, s.material_block_length)] ∧
      OffsetMap.find (register_material s material).material_map material.id
        = some s.material_block_length ∧
      ∀ k, k ≠ material.id →
        OffsetMap.find (register_material s material).material_map k
          = OffsetMap.find s.material_map k) ∧
    (material.id ∈ OffsetMap.keys s.material_map →
      (register_material s material).material_map = s.material_map) ∧
    (register_material s material).material_block_length
      = s.material_block_length + material.get_gl_buffer_stride ∧
    (register_material s material).hittable_map = s.hittable_map ∧
    (register_material s material).hittable_block_length = s.hittable_block_length ∧
    (register_material s material).hittable_render_queue = s.hittable_render_queue ∧
    (register_material s material).target = s.target := by
  refine ⟨?_, ?_, rfl, rfl, rfl, rfl, rfl⟩
  · intro h
    have hmap : (register_material s material).material_map
        = s.material_map ++ [(material.id, s.material_block_length)] := by
      simp [register_material, OffsetMap.insert, h]
    refine ⟨hmap, ?_, ?_⟩
    · rw [hmap, find_append_single, find_eq_none_of_not_mem _ _ h]
      simp
    · intro k hk
      rw [hmap, find_append_single, if_neg hk]
      cases OffsetMap.find s.material_map k <;> rfl
  · intro h
    simp [register_material, OffsetMap.insert, h]

/-- C11, witness: in a renderer that holds material 7 at offset 0 with block
length 4, registering a material of identity 8 puts it at offset 4, and
registering material 7 again leaves the map as it is. -/
theorem C11_register_material_witness :
    ((Material.mk 8 5).id ∉ OffsetMap.keys
        ({ target := sharedMaterialScene, hittable_map := [], material_map := [(7, 0)],
           hittable_render_queue := [], hittable_block_length := 0,
           material_block_length := 4 } : SceneRenderer).material_map ∧
      OffsetMap.find (register_material
        { target := sharedMaterialScene, hittable_map := [], material_map := [(7, 0)],
          hittable_render_queue := [], hittable_block_length := 0,
          material_block_length := 4 } (Material.mk 8 5)).material_map
        (Material.mk 8 5).id = some 4) ∧
    ((Material.mk 7 4).id ∈ OffsetMap.keys
        ({ target := sharedMaterialScene, hittable_map := [], material_map := [(7, 0)],
           hittable_render_queue := [], hittable_block_length := 0,
           material_block_length := 4 } : SceneRenderer).material_map ∧
      (register_material
        { target := sharedMaterialScene, hittable_map := [], material_map := [(7, 0)],
          hittable_render_queue := [], hittable_block_length := 0,
          material_block_length := 4 } (Material.mk 7 4)).material_map = [(7, 0)]) :=
  ⟨⟨by decide,
    ((C11_register_material
      { target := sharedMaterialScene, hittable_map := [], material_map := [(7, 0)],
        hittable_render_queue := [], hittable_block_length := 0,
        material_block_length := 4 } (Material.mk 8 5)).1 (by decide)).2.1⟩,
   ⟨by decide,
    (C11_register_material
      { target := sharedMaterialScene, hittable_map := [], material_map := [(7, 0)],
        hittable_render_queue := [], hittable_block_length := 0,
        material_block_length := 4 } (Material.mk 7 4)).2.1 (by decide)⟩⟩

/-! ## C12: one call of `enqueue_hittable_render` -/

/-- C12: `enqueue_hittable_render(hittable)`: the hittable is appended at the
back of the render queue; when it is not yet a key of `hittable_map` the map
gains the one entry (hittable, `material_block_length + hittable_block_length`
before the call), so it is found at that offset and every other key is found
as before; when it is already a key the map is unchanged;
`hittable_block_length` grows by the stride of the hittable, and
`material_map`, `material_block_length` and the target are unchanged. -/
theorem C12_enqueue_hittable_render (s : SceneRenderer) (hittable : Hittable) :
    (enqueue_hittable_render s hittable).hittable_render_queue
      = s.hittable_render_queue ++ [hittable] ∧
    (hittable.id ∉ OffsetMap.keys s.hittable_map →
      (enqueue_hittable_render s hittable).hittable_map
        = s.hittable_map
          ++ [(hittable.id, s.material_block_length + s.hittable_block_length)] ∧
      OffsetMap.find (enqueue_hittable_render s hittable).hittable_map hittable.id
        = some (s.material_block_length + s.hittable_block_length) ∧
      ∀ k, k ≠ hittable.id →
        OffsetMap.find (enqueue_hittable_render s hittable).hittable_map k
          = OffsetMap.find s.hittable_map k) ∧
    (hittable.id ∈ OffsetMap.keys s.hittable_map →
      (enqueue_hittable_render s hittable).hittable_map = s.hittable_map) ∧
    (enqueue_hittable_render s hittable).hittable_block_length
      = s.hittable_block_length + hittable.get_gl_buffer_stride ∧
    (enqueue_hittable_render s hittable).material_map = s.material_map ∧
    (enqueue_hittable_render s hittable).material_block_length = s.material_block_length ∧
    (enqueue_hittable_render s hittable).target = s.target := by
  refine ⟨rfl, ?_, ?_, rfl, rfl, rfl, rfl⟩
  · intro h
    have hmap : (enqueue_hittable_render s hittable).hittable_map
        = s.hittable_map
          ++ [(hittable.id, s.material_block_length + s.hittable_block_length)] := by
      simp [enqueue_hittable_render, OffsetMap.insert, h]
    refine ⟨hmap, ?_, ?_⟩
    · rw [hmap, find_append_single, find_eq_none_of_not_mem _ _ h]
      simp
    · intro k hk
      rw [hmap, find_append_single, if_neg hk]
      cases OffsetMap.find s.hittable_map k <;> rfl
  · intro h
    simp [enqueue_hittable_render, OffsetMap.insert, h]

/-- C12, witness: in a renderer whose material block has length 4 and which
holds the root (identity 0, stride 1) at offset 4, enqueueing a sphere of
identity 5 puts it at offset 4 + 1, and enqueueing the root again leaves the
map as it is. -/
theorem C12_enqueue_hittable_render_witness :
    ((Hittable.mk 5 6 [] []).id ∉ OffsetMap.keys
        ({ target := sharedMaterialScene, hittable_map := [(0, 4)], material_map := [(7, 0)],
           hittable_render_queue := [], hittable_block_length := 1,
           material_block_length := 4 } : SceneRenderer).hittable_map ∧
      OffsetMap.find (enqueue_hittable_render
        { target := sharedMaterialScene, hittable_map := [(0, 4)], material_map := [(7, 0)],
          hittable_render_queue := [], hittable_block_length := 1,
          material_block_length := 4 } (Hittable.mk 5 6 [] [])).hittable_map
        (Hittable.mk 5 6 [] []).id = some (4 + 1)) ∧
    ((Hittable.mk 0 1 [] []).id ∈ OffsetMap.keys
        ({ target := sharedMaterialScene, hittable_map := [(0, 4)], material_map := [(7, 0)],
           hittable_render_queue := [], hittable_block_length := 1,
           material_block_length := 4 } : SceneRenderer).hittable_map ∧
      (enqueue_hittable_render
        { target := sharedMaterialScene, hittable_map := [(0, 4)], material_map := [(7, 0)],
          hittable_render_queue := [], hittable_block_length := 1,
          material_block_length := 4 } (Hittable.mk 0 1 [] [])).hittable_map = [(0, 4)]) :=
  ⟨⟨by decide,
    ((C12_enqueue_hittable_render
      { target := sharedMaterialScene, hittable_map := [(0, 4)], material_map := [(7, 0)],
        hittable_render_queue := [], hittable_block_length := 1,
        material_block_length := 4 } (Hittable.mk 5 6 [] [])).2.1 (by decide)).2.1⟩,
   ⟨by decide,
    (C12_enqueue_hittable_render
      { target := sharedMaterialScene, hittable_map := [(0, 4)], material_map := [(7, 0)],
        hittable_render_queue := [], hittable_block_length := 1,
        material_block_length := 4 } (Hittable.mk 0 1 [] [])).2.2.1 (by decide)⟩⟩

/-! ## C13: the drain loop of `layout` terminates -/

theorem layout_eq_drain (s : SceneRenderer) : layout s = drain (layout_entry s) := rfl

theorem layout_entry_queue (s : SceneRenderer) :
    (layout_entry s).hittable_render_queue = [s.target.get_root_hittable] := by
  simp [layout_entry, enqueue_hittable_render, pop_all_eq, register_materials_eq,
    foldl_register_material]

theorem drain_step_nil (s : SceneRenderer) (h : s.hittable_render_queue = []) :
    drain_step s = none := by
  simp [drain_step, h]

theorem drain_step_cons (s : SceneRenderer) (next : Hittable) (rest : List Hittable)
    (h : s.hittable_render_queue = next :: rest) :
    drain_step s
      = some (next, register_hittables next { s with hittable_render_queue := rest }) := by
  simp [drain_step, h]

theorem queue_register_hittables (next : Hittable) (s : SceneRenderer) :
    (register_hittables next s).hittable_render_queue
      = s.hittable_render_queue ++ next.children := by
  simp [register_hittables, foldl_enqueue]

theorem levelOrder_cons (next : Hittable) (rest : List Hittable) :
    levelOrder (next :: rest) = next :: levelOrder (rest ++ next.children) := by
  have h := levelOrder_append [next] rest
  simpa using h

theorem drain_iter_enough (n : Nat) : ∀ s : SceneRenderer,
    weight s.hittable_render_queue ≤ n →
    (drain_iter n s).2 = drain s ∧ (drain_iter n s).1 = levelOrder s.hittable_render_queue := by
  induction n with
  | zero =>
    intro s h
    have h0 := weight_eq s.hittable_render_queue
    have hl : s.hittable_render_queue.length = 0 := by omega
    have hq : s.hittable_render_queue = [] := List.length_eq_zero.mp hl
    rw [drain_nil s hq, hq]
    simp [drain_iter, levelOrder]
  | succ n ih =>
    intro s h
    cases hq : s.hittable_render_queue with
    | nil =>
      rw [drain_nil s hq]
      simp [drain_iter, drain_step_nil s hq, levelOrder]
    | cons next rest =>
      have hw : weight (register_hittables next
          { s with hittable_render_queue := rest }).hittable_render_queue ≤ n := by
        rw [hq, weight_cons] at h
        rw [queue_register_hittables, weight_append]
        simp only []
        omega
      have h1 := ih _ hw
      rw [queue_register_hittables] at h1
      rw [drain_cons s next rest hq, levelOrder_cons]
      simp only [drain_iter, drain_step_cons s next rest hq]
      exact ⟨h1.1, by rw [h1.2]⟩

theorem drain_iter_short (k : Nat) : ∀ s : SceneRenderer,
    k < weight s.hittable_render_queue →
    (drain_iter k s).2.hittable_render_queue ≠ [] ∧ (drain_iter k s).1.length = k := by
  induction k with
  | zero =>
    intro s h
    refine ⟨?_, rfl⟩
    intro hq
    simp only [drain_iter] at hq
    rw [hq] at h
    simp [weight, Hittable.nodesList] at h
  | succ k ih =>
    intro s h
    cases hq : s.hittable_render_queue with
    | nil =>
      rw [hq] at h
      simp [weight, Hittable.nodesList] at h
    | cons next rest =>
      have hw : k < weight (register_hittables next
          { s with hittable_render_queue := rest }).hittable_render_queue := by
        rw [hq, weight_cons] at h
        rw [queue_register_hittables, weight_append]
        simp only []
        omega
      have h1 := ih _ hw
      simp only [drain_iter, drain_step_cons s next rest hq, List.length_cons]
      exact ⟨h1.1, by rw [h1.2]⟩

theorem weight_root (root : Hittable) : weight [root] = root.nodes.length := by
  simp [weight, Hittable.nodesList]

/-- C13: from any prior state (any queue on entry), the second loop of
`layout()` ends after exactly as many iterations as the scene has nodes: run
for that many iterations it reaches the state `layout()` returns, whose queue
is empty; cut off earlier the queue is not yet empty; the nodes it dequeues
are, in order, the breadth-first order of the scene, a rearrangement of the
list of its nodes; so in a tree-shaped scene no node is dequeued twice. -/
theorem C13_layout_terminates (s : SceneRenderer) :
    (drain_iter s.target.get_root_hittable.nodes.length (layout_entry s)).2 = layout s ∧
    (layout s).hittable_render_queue = [] ∧
    (∀ k, k < s.target.get_root_hittable.nodes.length →
      (drain_iter k (layout_entry s)).2.hittable_render_queue ≠ []) ∧
    (drain_iter s.target.get_root_hittable.nodes.length (layout_entry s)).1
      = breadthFirst s.target.get_root_hittable ∧
    (drain_iter s.target.get_root_hittable.nodes.length (layout_entry s)).1.length
      = s.target.get_root_hittable.nodes.length ∧
    ((drain_iter s.target.get_root_hittable.nodes.length (layout_entry s)).1).Perm
      s.target.get_root_hittable.nodes ∧
    (TreeShaped s.target.get_root_hittable →
      ((drain_iter s.target.get_root_hittable.nodes.length (layout_entry s)).1.map
        Hittable.id).Nodup) := by
  have hw : weight (layout_entry s).hittable_render_queue
      = s.target.get_root_hittable.nodes.length := by
    rw [layout_entry_queue, weight_root]
  have he := drain_iter_enough s.target.get_root_hittable.nodes.length (layout_entry s)
    (Nat.le_of_eq hw)
  have htrace : (drain_iter s.target.get_root_hittable.nodes.length (layout_entry s)).1
      = breadthFirst s.target.get_root_hittable := by
    rw [he.2, layout_entry_queue, breadthFirst]
  have hp := breadthFirst_perm s.target.get_root_hittable
  refine ⟨?_, ?_, ?_, htrace, ?_, ?_, ?_⟩
  · rw [he.1, layout_eq_drain]
  · rw [layout_eq]
  · intro k hk
    exact (drain_iter_short k (layout_entry s) (by rw [hw]; exact hk)).1
  · rw [htrace]
    exact hp.length_eq
  · rw [htrace]
    exact hp
  · intro ht
    rw [htrace]
    exact ((hp.map Hittable.id).nodup_iff).mpr ht

/-- C13, witness: the scene with a composite root and two spheres is
tree-shaped; its three nodes are dequeued once each. -/
theorem C13_layout_terminates_witness :
    TreeShaped (fresh twoMaterialScene).target.get_root_hittable ∧
    ((drain_iter (fresh twoMaterialScene).target.get_root_hittable.nodes.length
        (layout_entry (fresh twoMaterialScene))).1.map Hittable.id).Nodup :=
  ⟨by decide, (C13_layout_terminates (fresh twoMaterialScene)).2.2.2.2.2.2 (by decide)⟩

/-! ## C14: regions of distinct entities are disjoint -/

theorem before_cons_eq (x : Nat × Int) (xs : List (Nat × Int)) (k : Nat) (h : x.1 = k) :
    before k (x :: xs) = [] := by
  simp [before, List.takeWhile_cons, h]

theorem before_cons_ne (x : Nat × Int) (xs : List (Nat × Int)) (k : Nat) (h : x.1 ≠ k) :
    before k (x :: xs) = x :: before k xs := by
  simp [before, List.takeWhile_cons, h]

theorem mem_tail_of_fst_ne (x e : Nat × Int) (xs : List (Nat × Int)) (he : e ∈ x :: xs)
    (h : x.1 ≠ e.1) : e ∈ xs := by
  rcases List.mem_cons.mp he with rfl | hin
  · exact absurd rfl h
  · exact hin

theorem regions_disjoint (l : List (Nat × Int)) (hnn : ∀ e ∈ l, 0 ≤ e.2)
    (hc : ∀ a ∈ l, ∀ b ∈ l, a.1 = b.1 → a.2 = b.2)
    (e1 e2 : Nat × Int) (h1 : e1 ∈ l) (h2 : e2 ∈ l) (hne : e1.1 ≠ e2.1) :
    sumStrides (before e1.1 l) + e1.2 ≤ sumStrides (before e2.1 l) ∨
    sumStrides (before e2.1 l) + e2.2 ≤ sumStrides (before e1.1 l) := by
  induction l with
  | nil => simp at h1
  | cons x xs ih =>
    have hxs : ∀ a ∈ xs, 0 ≤ a.2 := fun a ha => hnn a (List.mem_cons_of_mem x ha)
    have hcs : ∀ a ∈ xs, ∀ b ∈ xs, a.1 = b.1 → a.2 = b.2 := fun a ha b hb =>
      hc a (List.mem_cons_of_mem x ha) b (List.mem_cons_of_mem x hb)
    by_cases hx1 : x.1 = e1.1
    · have hx2 : x.1 ≠ e2.1 := fun e => hne (hx1.symm.trans e)
      have hin2 : e2 ∈ xs := mem_tail_of_fst_ne x e2 xs h2 hx2
      have hs := hc x (List.mem_cons_self x xs) e1 h1 hx1
      have hb := (before_bounds xs hxs e2 hin2).1
      rw [before_cons_eq x xs e1.1 hx1, before_cons_ne x xs e2.1 hx2, sumStrides_cons,
        sumStrides_nil]
      left
      omega
    · by_cases hx2 : x.1 = e2.1
      · have hin1 : e1 ∈ xs := mem_tail_of_fst_ne x e1 xs h1 hx1
        have hs := hc x (List.mem_cons_self x xs) e2 h2 hx2
        have hb := (before_bounds xs hxs e1 hin1).1
        rw [before_cons_eq x xs e2.1 hx2, before_cons_ne x xs e1.1 hx1, sumStrides_cons,
          sumStrides_nil]
        right
        omega
      · have hin1 : e1 ∈ xs := mem_tail_of_fst_ne x e1 xs h1 hx1
        have hin2 : e2 ∈ xs := mem_tail_of_fst_ne x e2 xs h2 hx2
        have h := ih hxs hcs hin1 hin2
        rw [before_cons_ne x xs e1.1 hx1, before_cons_ne x xs e2.1 hx2, sumStrides_cons,
          sumStrides_cons]
        omega

theorem regions_disjoint_find (base : Int) (l : List (Nat × Int)) (hpos : ∀ e ∈ l, 0 < e.2)
    (hc : ∀ a ∈ l, ∀ b ∈ l, a.1 = b.1 → a.2 = b.2)
    (e1 e2 : Nat × Int) (h1 : e1 ∈ l) (h2 : e2 ∈ l) (hne : e1.1 ≠ e2.1) :
    ∃ o1 o2 : Int,
      OffsetMap.find (firstOffsets base l) e1.1 = some o1 ∧
      OffsetMap.find (firstOffsets base l) e2.1 = some o2 ∧
      (o1 + e1.2 ≤ o2 ∨ o2 + e2.2 ≤ o1) ∧ o1 ≠ o2 := by
  have hnn : ∀ e ∈ l, 0 ≤ e.2 := fun e he => Int.le_of_lt (hpos e he)
  have hd := regions_disjoint l hnn hc e1 e2 h1 h2 hne
  have hp1 := hpos e1 h1
  have hp2 := hpos e2 h2
  refine ⟨base + sumStrides (before e1.1 l), base + sumStrides (before e2.1 l), ?_, ?_, ?_, ?_⟩
  · rw [find_firstOffsets, if_pos (List.mem_map_of_mem Prod.fst h1)]
  · rw [find_firstOffsets, if_pos (List.mem_map_of_mem Prod.fst h2)]
  · omega
  · omega

/-- C14: in a scene whose strides are all positive (an identity standing for
one object with one stride), after `layout()` any two distinct registered
materials have offsets whose regions `[offset, offset + stride)` do not
overlap, and so have any two distinct nodes; in particular the two offsets
differ.  Entities registered more than once are included. -/
theorem C14_regions_disjoint (s : SceneRenderer)
    (hpos : PosStrides s.target.get_root_hittable)
    (hid : StrideOfIdentity s.target.get_root_hittable) :
    (∀ m1 ∈ s.target.get_root_hittable.registered_materials,
      ∀ m2 ∈ s.target.get_root_hittable.registered_materials, m1.id ≠ m2.id →
      ∃ o1 o2 : Int,
        OffsetMap.find (layout s).material_map m1.id = some o1 ∧
        OffsetMap.find (layout s).material_map m2.id = some o2 ∧
        (o1 + m1.get_gl_buffer_stride ≤ o2 ∨ o2 + m2.get_gl_buffer_stride ≤ o1) ∧
        o1 ≠ o2) ∧
    (∀ n1 ∈ s.target.get_root_hittable.nodes,
      ∀ n2 ∈ s.target.get_root_hittable.nodes, n1.id ≠ n2.id →
      ∃ o1 o2 : Int,
        OffsetMap.find (layout s).hittable_map n1.id = some o1 ∧
        OffsetMap.find (layout s).hittable_map n2.id = some o2 ∧
        (o1 + n1.get_gl_buffer_stride ≤ o2 ∨ o2 + n2.get_gl_buffer_stride ≤ o1) ∧
        o1 ≠ o2) := by
  have hbf := breadthFirst_perm s.target.get_root_hittable
  have hmpos : ∀ e ∈ materialEntries s.target.get_root_hittable.registered_materials,
      0 < e.2 := by
    intro e he
    simp only [materialEntries, List.mem_map] at he
    obtain ⟨m, hm, rfl⟩ := he
    exact hpos.1 m hm
  have hmc : ∀ a ∈ materialEntries s.target.get_root_hittable.registered_materials,
      ∀ b ∈ materialEntries s.target.get_root_hittable.registered_materials,
      a.1 = b.1 → a.2 = b.2 := by
    intro a ha b hb hab
    simp only [materialEntries, List.mem_map] at ha hb
    obtain ⟨ma, hma, rfl⟩ := ha
    obtain ⟨mb, hmb, rfl⟩ := hb
    exact hid.1 ma hma mb hmb hab
  have hhpos : ∀ e ∈ hittableEntries (breadthFirst s.target.get_root_hittable),
      0 < e.2 := by
    intro e he
    simp only [hittableEntries, List.mem_map] at he
    obtain ⟨n, hn, rfl⟩ := he
    exact hpos.2 n (hbf.mem_iff.mp hn)
  have hhc : ∀ a ∈ hittableEntries (breadthFirst s.target.get_root_hittable),
      ∀ b ∈ hittableEntries (breadthFirst s.target.get_root_hittable),
      a.1 = b.1 → a.2 = b.2 := by
    intro a ha b hb hab
    simp only [hittableEntries, List.mem_map] at ha hb
    obtain ⟨na, hna, rfl⟩ := ha
    obtain ⟨nb, hnb, rfl⟩ := hb
    exact hid.2 na (hbf.mem_iff.mp hna) nb (hbf.mem_iff.mp hnb) hab
  rw [layout_eq]
  refine ⟨?_, ?_⟩
  · intro m1 h1 m2 h2 hne
    exact regions_disjoint_find 0 _ hmpos hmc
      (m1.id, m1.get_gl_buffer_stride) (m2.id, m2.get_gl_buffer_stride)
      (List.mem_map_of_mem (fun m : Material => (m.id, m.get_gl_buffer_stride)) h1)
      (List.mem_map_of_mem (fun m : Material => (m.id, m.get_gl_buffer_stride)) h2) hne
  · intro n1 h1 n2 h2 hne
    exact regions_disjoint_find _ _ hhpos hhc
      (n1.id, n1.get_gl_buffer_stride) (n2.id, n2.get_gl_buffer_stride)
      (List.mem_map_of_mem (fun h : Hittable => (h.id, h.get_gl_buffer_stride))
        (hbf.mem_iff.mpr h1))
      (List.mem_map_of_mem (fun h : Hittable => (h.id, h.get_gl_buffer_stride))
        (hbf.mem_iff.mpr h2)) hne

/-- C14, witness: in the scene where material 7 is registered twice around
material 8, all strides are positive and the regions of the materials 7 and 8
do not overlap. -/
theorem C14_regions_disjoint_witness :
    PosStrides (fresh repeatedMaterialScene).target.get_root_hittable ∧
    StrideOfIdentity (fresh repeatedMaterialScene).target.get_root_hittable ∧
    ∃ o1 o2 : Int,
      OffsetMap.find (layout (fresh repeatedMaterialScene)).material_map
        (Material.mk 7 4).id = some o1 ∧
      OffsetMap.find (layout (fresh repeatedMaterialScene)).material_map
        (Material.mk 8 5).id = some o2 ∧
      (o1 + (Material.mk 7 4).get_gl_buffer_stride ≤ o2 ∨
        o2 + (Material.mk 8 5).get_gl_buffer_stride ≤ o1) ∧
      o1 ≠ o2 :=
  ⟨by decide, by decide,
    (C14_regions_disjoint (fresh repeatedMaterialScene) (by decide) (by decide)).1
      (Material.mk 7 4) (by decide) (Material.mk 8 5) (by decide) (by decide)⟩

/-! ## C15: the write loops only read the renderer -/

mutual
theorem registered_materials_eq : ∀ t : Hittable,
    t.registered_materials = t.nodes.flatMap Hittable.materials
  | Hittable.mk _ _ ms cs => by
    simp only [Hittable.registered_materials, Hittable.nodes, List.flatMap_cons,
      Hittable.materials]
    rw [registered_materialsList_eq cs]
theorem registered_materialsList_eq : ∀ l : List Hittable,
    Hittable.registered_materialsList l = (Hittable.nodesList l).flatMap Hittable.materials
  | [] => by
    simp [Hittable.registered_materialsList, Hittable.nodesList]
  | c :: cs => by
    simp only [Hittable.registered_materialsList, Hittable.nodesList, List.flatMap_append]
    rw [registered_materials_eq c, registered_materialsList_eq cs]
end

theorem child_mem_nodes (root n c : Hittable) (hn : n ∈ root.nodes) (hc : c ∈ n.children) :
    c ∈ root.nodes := by
  obtain ⟨l1, l2, l3, h⟩ := breadthFirst_split root n c hn hc
  apply (breadthFirst_perm root).mem_iff.mp
  rw [h]
  simp

theorem material_mem_registered (root n : Hittable) (m : Material) (hn : n ∈ root.nodes)
    (hm : m ∈ n.materials) : m ∈ root.registered_materials := by
  rw [registered_materials_eq]
  exact List.mem_flatMap.mpr ⟨n, hn, hm⟩

theorem layout_material_found (s : SceneRenderer) (m : Material)
    (hm : m ∈ s.target.get_root_hittable.registered_materials) :
    ∃ off : Int, OffsetMap.find (layout s).material_map m.id = some off := by
  have hk : m.id ∈ (materialEntries s.target.get_root_hittable.registered_materials).map
      Prod.fst := by
    simp only [materialEntries, List.map_map]
    exact List.mem_map_of_mem _ hm
  rw [layout_eq]
  exact ⟨_, by rw [find_firstOffsets, if_pos hk]⟩

theorem layout_hittable_found (s : SceneRenderer) (n : Hittable)
    (hn : n ∈ s.target.get_root_hittable.nodes) :
    ∃ off : Int, OffsetMap.find (layout s).hittable_map n.id = some off := by
  have hk : n.id ∈ (hittableEntries (breadthFirst s.target.get_root_hittable)).map
      Prod.fst := by
    simp only [hittableEntries, List.map_map]
    exact List.mem_map_of_mem _ ((breadthFirst_perm _).mem_iff.mpr hn)
  rw [layout_eq]
  exact ⟨_, by rw [find_firstOffsets, if_pos hk]⟩

/-- C15: the renderer that `render` returns is the renderer with which it
entered its two write loops (the loops change neither map and neither
length), and the buffer it returns is the buffer of that point after the
writes of the entries of the two maps and the synchronization request.  That
renderer is `layout s` when the state was stale and `s` otherwise, and it is
`layout s` when `render` follows a `layout()`.  In the laid-out renderer every
node of the scene and every material registered from the root has an offset,
and every offset the write of a node looks up (its materials, its children)
is present. -/
theorem C15_writes_only_read (s : SceneRenderer) (b : SceneBuffer) :
    (render s b).1 = (render_prepare s b).1 ∧
    (render s b).2
      = ((render_prepare s b).1.hittable_map.foldl SceneBuffer.hittable_render
          ((render_prepare s b).1.material_map.foldl SceneBuffer.material_render
            (render_prepare s b).2)).set_needs_synchronize ∧
    (render_prepare s b).1 = (if stale s then layout s else s) ∧
    (render_prepare (layout s) b).1 = layout s ∧
    (∀ n ∈ s.target.get_root_hittable.nodes,
      ∃ off : Int, OffsetMap.find (layout s).hittable_map n.id = some off) ∧
    (∀ m ∈ s.target.get_root_hittable.registered_materials,
      ∃ off : Int, OffsetMap.find (layout s).material_map m.id = some off) ∧
    (∀ n ∈ s.target.get_root_hittable.nodes, ∀ o ∈ write_lookups (layout s) n,
      ∃ off : Int, o = some off) := by
  refine ⟨rfl, rfl, rfl, render_layout_fst s b, ?_, ?_, ?_⟩
  · intro n hn
    exact layout_hittable_found s n hn
  · intro m hm
    exact layout_material_found s m hm
  · intro n hn o ho
    simp only [write_lookups, List.mem_append, List.mem_map] at ho
    rcases ho with ⟨m, hm, rfl⟩ | ⟨c, hc, rfl⟩
    · obtain ⟨off, h⟩ := layout_material_found s m
        (material_mem_registered _ n m hn hm)
      exact ⟨off, h⟩
    · obtain ⟨off, h⟩ := layout_hittable_found s c (child_mem_nodes _ n c hn hc)
      exact ⟨off, h⟩

end Armasa
